import Mathlib

/-!
Verification of the realtime sudoku race server in `src/server.js`.

The server keeps a registry of matches (a JS `Map` keyed by match id), four
per-mode waiting queues, and reacts to socket events `findMatch`,
`rejoinMatch`, `makeMove`, `leaveMatch`, `disconnect`, plus the grace-period
timers armed on transport disconnects.  The embedding below translates that
code directly:

* JS arrays of tickets become `List Ticket`, with `push` appending at the end
  and `pop` taking the last element;
* the `Map` becomes an association list with JS `Map` semantics (`set`
  replaces in place or appends, `delete` removes the key, insertion order is
  preserved);
* a player's `progress` array is a `List (Option String)`: JS assignment at
  an out-of-range index grows the array, the fresh holes (`none`) render as
  the empty string in `join` and are skipped by `filter`;
* `Math.random`-driven shuffles are parametrised by an integer stream: the
  JS draw `Math.floor(Math.random() * (i + 1))`, an arbitrary integer in
  `[0, i]`, is modelled as `rnd k % (i + 1)` for an arbitrary `rnd`;
* `setTimeout`/`clearTimeout` handles per slot become pending flags, and the
  timer callback is a separate transition (`timerFire`) that can only occur
  while the flag is pending (a cleared timer never runs);
* emitted socket events are returned as an explicit `List Emit`; the
  `lobbyStats` broadcast payload is derived state and is recorded as a bare
  `Emit.lobbyStats` marker;
* the recursive backtracking `solve` gets an explicit fuel argument bounding
  the recursion depth; depth is bounded by the number of empty cells, so
  fuel `size * size + 1` is proved never to run out.
-/

set_option maxRecDepth 4000

namespace SudoGame

/-! ## Data model -/

/-- A waiting-queue entry: `{ id: socket.id, pid, name }` in `findMatch`. -/
structure Ticket where
  id : String
  pid : String
  name : String
deriving DecidableEq

/-- One player slot of a match: socket id, persistent id, display name and
the mutable progress array (initially `puzzle.split("")`). -/
structure Slot where
  id : String
  pid : String
  name : String
  progress : List (Option String)
deriving DecidableEq

/-- A match record as stored in the `matches` map.  The two timeout fields
model the presence of a pending grace timer handle in `match.timeouts`. -/
structure Match where
  id : String
  mode : String
  puzzle : String
  solution : String
  initialFilled : Nat
  p1 : Slot
  p2 : Slot
  status : String
  timeoutP1 : Bool
  timeoutP2 : Bool
deriving DecidableEq

/-- The whole server state: the match registry and the four per-mode waiting
queues (`waitingQueues = { "4": [], "6": [], "9": [], "9expert": [] }`). -/
structure ServerState where
  matchesMap : List (String × Match)
  q4 : List Ticket
  q6 : List Ticket
  q9 : List Ticket
  q9expert : List Ticket
deriving DecidableEq

/-- The socket messages a handler emits. -/
inductive Emit where
  | waiting (mode : String)
  | matchFound (sockTo matchId puzzle mode player opponentName : String)
      (currentProgress : Option (List (Option String)))
      (opponentFilled : Option Int)
  | gameOver (room winner winnerName reason : String)
  | playerProgress (room playerId : String) (filled initialFilled cellIndex : Nat)
      (cleared : Bool)
  | errorEv (sockTo message : String)
  | lobbyStats
deriving DecidableEq

/-! ## JS helpers -/

/-- JS truthiness of the `value` payload field (strings only are sent):
`undefined` and `""` are falsy. -/
def jsFalsy : Option String → Bool
  | none => true
  | some s => s == ""

/-- `value || "-"` in `makeMove`. -/
def orDash (v : Option String) : String :=
  match v with
  | none => "-"
  | some s => if s == "" then "-" else s

/-- JS array assignment `arr[index] = v`: in range it replaces, past the end
it grows the array with holes. -/
def jsArraySet (l : List (Option String)) (i : Nat) (v : String) :
    List (Option String) :=
  if i < l.length then l.set i (some v)
  else l ++ List.replicate (i - l.length) none ++ [some v]

/-- `progress.filter(x => x !== "-").length`: JS `filter` skips holes. -/
def filledCount (p : List (Option String)) : Nat :=
  (p.filterMap id).countP (fun s => s != "-")

/-- `progress.join("")`: holes render as the empty string. -/
def progJoin (p : List (Option String)) : String :=
  String.join (p.map (fun c => c.getD ""))

/-! ## Map and queue primitives -/

/-- `matches.get(k)`: the value stored at key `k`. -/
def mapGet (l : List (String × Match)) (k : String) : Option Match :=
  match l with
  | [] => none
  | p :: t => if p.1 = k then some p.2 else mapGet t k

/-- `matches.set(k, v)`: replace in place if the key exists, else append
(JS `Map` insertion-order semantics). -/
def mapSet (l : List (String × Match)) (k : String) (v : Match) :
    List (String × Match) :=
  match l with
  | [] => [(k, v)]
  | p :: t => if p.1 = k then (k, v) :: t else p :: mapSet t k v

/-- `matches.delete(k)`: remove the entry stored at key `k`. -/
def mapDelete (l : List (String × Match)) (k : String) : List (String × Match) :=
  match l with
  | [] => []
  | p :: t => if p.1 = k then mapDelete t k else p :: mapDelete t k

/-- The grid modes with their own waiting queue. -/
def validModes : List String := ["4", "6", "9", "9expert"]

/-- `waitingQueues[gridMode]`. -/
def getQueue (s : ServerState) (mode : String) : List Ticket :=
  if mode = "4" then s.q4
  else if mode = "6" then s.q6
  else if mode = "9" then s.q9
  else s.q9expert

/-- Replace one mode's waiting queue. -/
def setQueue (s : ServerState) (mode : String) (q : List Ticket) : ServerState :=
  if mode = "4" then { s with q4 := q }
  else if mode = "6" then { s with q6 := q }
  else if mode = "9" then { s with q9 := q }
  else { s with q9expert := q }

/-- `q.findIndex(p => p.id === socketId)` followed by `splice(i, 1)`:
remove the first ticket of this socket, if any. -/
def removeFromQueue (q : List Ticket) (sockId : String) : List Ticket :=
  match q with
  | [] => []
  | p :: t => if p.id = sockId then t else p :: removeFromQueue t sockId

/-- Whether `handleLeave` will remove a ticket from this queue. -/
def queueHit (q : List Ticket) (sockId : String) : Bool :=
  q.any (fun p => p.id == sockId)

/-! ## Slot selectors -/

/-- The `p1`/`p2` resolution by socket id used in `makeMove`. -/
def playerKeyByConn (m : Match) (sockId : String) : Option String :=
  if m.p1.id = sockId then some "p1"
  else if m.p2.id = sockId then some "p2"
  else none

/-- The `p1`/`p2` resolution by persistent id used in `rejoinMatch`. -/
def playerKeyByPid (m : Match) (pid : String) : Option String :=
  if m.p1.pid = pid then some "p1"
  else if m.p2.pid = pid then some "p2"
  else none

def slotOf (m : Match) (k : String) : Slot :=
  if k = "p1" then m.p1 else m.p2

def otherKey (k : String) : String :=
  if k = "p1" then "p2" else "p1"

def setSlot (m : Match) (k : String) (sl : Slot) : Match :=
  if k = "p1" then { m with p1 := sl } else { m with p2 := sl }

def setTimeoutKey (m : Match) (k : String) (b : Bool) : Match :=
  if k = "p1" then { m with timeoutP1 := b } else { m with timeoutP2 := b }

/-! ## Event handlers -/

/-- Mode validation: `["4","6","9","9expert"].includes(mode) ? mode : "9"`. -/
def gridModeOf (mode : Option String) : String :=
  match mode with
  | some m => if validModes.contains m then m else "9"
  | none => "9"

/-- `name || "Anonymous"`. -/
def nameOf (name : Option String) : String :=
  match name with
  | some n => if n == "" then "Anonymous" else n
  | none => "Anonymous"

/-- `playerId || socket.id`. -/
def pidOf (sockId : String) (playerId : Option String) : String :=
  match playerId with
  | some p => if p == "" then sockId else p
  | none => sockId

/-- The `findMatch` handler.  `newMatchId` stands for the
`match_${Date.now()}_...` fresh id, `gen` for the `generatePuzzle(gridMode)`
result of this invocation, and `oppOnline` for whether
`io.sockets.sockets.get(opponentId)` is still connected. -/
def findMatch (s : ServerState) (sockId : String)
    (mode name playerId : Option String) (newMatchId : String)
    (gen : String × String) (oppOnline : Bool) : ServerState × List Emit :=
  let gridMode := gridModeOf mode
  let playerName := nameOf name
  let pid := pidOf sockId playerId
  let queue := getQueue s gridMode
  match queue.getLast? with
  | some opponent =>
    let rest := queue.dropLast
    if opponent.pid = pid then
      (setQueue s gridMode (rest ++ [⟨sockId, pid, playerName⟩]), [])
    else
      let puzzle := gen.1
      let solution := gen.2
      let initialFilled := puzzle.data.countP (fun c => c != '-')
      let prog : List (Option String) :=
        puzzle.data.map (fun c => some (String.singleton c))
      let m : Match :=
        ⟨newMatchId, gridMode, puzzle, solution, initialFilled,
          ⟨opponent.id, opponent.pid, opponent.name, prog⟩,
          ⟨sockId, pid, playerName, prog⟩, "playing", false, false⟩
      let s1 := setQueue s gridMode rest
      let s2 := { s1 with matchesMap := mapSet s1.matchesMap newMatchId m }
      (s2,
        (if oppOnline then
          [Emit.matchFound opponent.id newMatchId puzzle gridMode "p1"
            playerName none none]
        else []) ++
        [Emit.matchFound sockId newMatchId puzzle gridMode "p2"
          opponent.name none none,
         Emit.lobbyStats])
  | none =>
    (setQueue s gridMode (queue ++ [⟨sockId, pid, playerName⟩]),
      [Emit.waiting gridMode, Emit.lobbyStats])

/-- The `rejoinMatch` handler. -/
def rejoinMatch (s : ServerState) (sockId matchId playerId : String) :
    ServerState × List Emit :=
  match mapGet s.matchesMap matchId with
  | none => (s, [Emit.errorEv sockId "Match not found or expired"])
  | some m =>
    match playerKeyByPid m playerId with
    | none => (s, [Emit.errorEv sockId "Not a participant in this match"])
    | some k =>
      let player := slotOf m k
      let opponent := slotOf m (otherKey k)
      let m1 := setTimeoutKey (setSlot m k { player with id := sockId }) k false
      let s1 := { s with matchesMap := mapSet s.matchesMap matchId m1 }
      (s1,
        [Emit.matchFound sockId matchId m.puzzle m.mode k opponent.name
          (some player.progress)
          (some ((filledCount opponent.progress : Int) - (m.initialFilled : Int))),
         Emit.lobbyStats])

/-- The `makeMove` handler. -/
def makeMove (s : ServerState) (sockId matchId : String) (index : Nat)
    (value : Option String) : ServerState × List Emit :=
  match mapGet s.matchesMap matchId with
  | none => (s, [])
  | some m =>
    if m.status ≠ "playing" then (s, [])
    else
      match playerKeyByConn m sockId with
      | none => (s, [])
      | some k =>
        let player := slotOf m k
        let newProg := jsArraySet player.progress index (orDash value)
        let m1 := setSlot m k { player with progress := newProg }
        if progJoin newProg = m.solution then
          ({ s with matchesMap :=
              (mapDelete (mapSet s.matchesMap matchId { m1 with status := "finished" })
                matchId) },
            [Emit.gameOver matchId sockId player.name "solved", Emit.lobbyStats])
        else
          ({ s with matchesMap := mapSet s.matchesMap matchId m1 },
            [Emit.playerProgress matchId sockId (filledCount newProg)
              m.initialFilled index (jsFalsy value),
             Emit.lobbyStats])

/-- `finishMatch`: set the status to finished, emit `gameOver` for the
winner, delete the match from the registry. -/
def finishMatch (ms : List (String × Match)) (matchId : String) (m : Match)
    (winnerKey reason : String) : List (String × Match) × Emit :=
  let winner := slotOf m winnerKey
  (mapDelete (mapSet ms matchId { m with status := "finished" }) matchId,
    Emit.gameOver matchId winner.id winner.name reason)

/-- One iteration of `handleLeave`'s `for (const [matchId, match] of
matches.entries())` loop, threading the registry, the emitted events and the
`statsChanged` flag. -/
def leaveStep (sockId : String) (immediate : Bool)
    (acc : List (String × Match) × List Emit × Bool) (e : String × Match) :
    List (String × Match) × List Emit × Bool :=
  let ms := acc.1
  let evs := acc.2.1
  let ch := acc.2.2
  let m := e.2
  if m.p1.id = sockId ∨ m.p2.id = sockId then
    if m.status = "playing" then
      let playerKey := if m.p1.id = sockId then "p1" else "p2"
      if immediate then
        let r := finishMatch ms e.1 m (otherKey playerKey) "opponent_disconnected"
        (r.1, evs ++ [r.2], true)
      else
        (mapSet ms e.1 (setTimeoutKey m playerKey true), evs, ch)
    else acc
  else acc

/-- `handleLeave(socketId, immediate)`: drop any waiting ticket of this
socket, then walk the registry forfeiting (immediate) or arming a grace
timer (disconnect) in every playing match that binds this socket. -/
def handleLeave (s : ServerState) (sockId : String) (immediate : Bool) :
    ServerState × List Emit :=
  let ch0 := queueHit s.q4 sockId || queueHit s.q6 sockId ||
    queueHit s.q9 sockId || queueHit s.q9expert sockId
  let s1 : ServerState :=
    { s with
      q4 := removeFromQueue s.q4 sockId
      q6 := removeFromQueue s.q6 sockId
      q9 := removeFromQueue s.q9 sockId
      q9expert := removeFromQueue s.q9expert sockId }
  let r := s1.matchesMap.foldl (leaveStep sockId immediate) (s1.matchesMap, [], ch0)
  ({ s1 with matchesMap := r.1 },
    r.2.1 ++ (if r.2.2 then [Emit.lobbyStats] else []))

/-- The body of the grace timer armed in `handleLeave`: re-read the match and
forfeit it if it is still playing.  This transition only happens while the
slot's timer is pending (`clearTimeout` in `rejoinMatch` prevents the
callback from ever running). -/
def timerFire (s : ServerState) (matchId playerKey : String) :
    ServerState × List Emit :=
  match mapGet s.matchesMap matchId with
  | none => (s, [])
  | some m =>
    if m.status = "playing" then
      let r := finishMatch s.matchesMap matchId m (otherKey playerKey)
        "opponent_disconnected"
      ({ s with matchesMap := r.1 }, [r.2, Emit.lobbyStats])
    else (s, [])

/-- Whether the grace timer of `playerKey` in `matchId` is pending. -/
def timerPending (s : ServerState) (matchId playerKey : String) : Bool :=
  match mapGet s.matchesMap matchId with
  | some m => if playerKey = "p1" then m.timeoutP1 else m.timeoutP2
  | none => false

/-- The fixed grace-period duration passed to `setTimeout` (milliseconds). -/
def gracePeriodMs : Nat := 10000

/-- The state at process start: empty registry, empty queues. -/
def initState : ServerState := ⟨[], [], [], [], []⟩

/-- Reachability under the server's event handlers.  `findMatch` is
quantified over the freshly generated match id and puzzle pair, and a grace
timer can only fire while its pending flag is set. -/
inductive Reachable : ServerState → Prop where
  | init : Reachable initState
  | findMatch (s : ServerState) (sockId : String)
      (mode name playerId : Option String) (newMatchId : String)
      (gen : String × String) (oppOnline : Bool) :
      Reachable s →
      Reachable (findMatch s sockId mode name playerId newMatchId gen oppOnline).1
  | rejoinMatch (s : ServerState) (sockId matchId playerId : String) :
      Reachable s → Reachable (rejoinMatch s sockId matchId playerId).1
  | makeMove (s : ServerState) (sockId matchId : String) (index : Nat)
      (value : Option String) :
      Reachable s → Reachable (makeMove s sockId matchId index value).1
  | leaveMatch (s : ServerState) (sockId : String) :
      Reachable s → Reachable (handleLeave s sockId true).1
  | disconnect (s : ServerState) (sockId : String) :
      Reachable s → Reachable (handleLeave s sockId false).1
  | timerFire (s : ServerState) (matchId playerKey : String) :
      Reachable s → timerPending s matchId playerKey = true →
      Reachable (timerFire s matchId playerKey).1

/-! ## The generic sudoku generator (`generateCustom`)

Boards are `List (List Nat)` exactly like the JS `size × size` array of
numbers, `0` marking an empty cell.  All randomness is drawn from an
arbitrary integer stream: `rnd k i` is the `i`-th `Math.random` draw of the
`k`-th `shuffle` invocation, reduced mod the JS range `[0, i]`. -/

/-- `board[r][c]` (0 outside the board). -/
def bget (b : List (List Nat)) (r c : Nat) : Nat :=
  (b.getD r []).getD c 0

/-- `board[r][c] = v`. -/
def bset (b : List (List Nat)) (r c v : Nat) : List (List Nat) :=
  b.set r ((b.getD r []).set c v)

/-- The `isValid(board, row, col, num)` check of `generateCustom`: `num`
occurs nowhere in the row, the column, or the `boxRows × boxCols` box. -/
def isValid (size boxRows boxCols : Nat) (b : List (List Nat))
    (row col num : Nat) : Bool :=
  ((List.range size).all fun c => bget b row c != num) &&
  ((List.range size).all fun r => bget b r col != num) &&
  ((List.range boxRows).all fun dr =>
    (List.range boxCols).all fun dc =>
      bget b (row / boxRows * boxRows + dr) (col / boxCols * boxCols + dc) != num)

/-- The JS destructuring swap `[arr[i], arr[j]] = [arr[j], arr[i]]`. -/
def swapL {α : Type} (l : List α) (i j : Nat) : List α :=
  match l[i]?, l[j]? with
  | some a, some b => (l.set i b).set j a
  | _, _ => l

/-- The Fisher–Yates loop of `shuffle`, counting `i` down to 1; at loop
index `i` the partner index `Math.floor(Math.random() * (i + 1))` is an
arbitrary integer in `[0, i]`, modelled as `rnd i % (i + 1)`. -/
def shuffleAux {α : Type} (rnd : Nat → Nat) : Nat → List α → List α
  | 0, l => l
  | i + 1, l => shuffleAux rnd i (swapL l (i + 1) (rnd (i + 1) % (i + 2)))

/-- `shuffle(arr)`. -/
def shuffle {α : Type} (rnd : Nat → Nat) (l : List α) : List α :=
  shuffleAux rnd (l.length - 1) l

/-- The row-major cell order of `solve`'s scan. -/
def cellsRM (size : Nat) : List (Nat × Nat) :=
  (List.range size).flatMap fun r => (List.range size).map fun c => (r, c)

/-- The first empty cell in row-major order, as found by `solve`'s nested
loops. -/
def findEmpty (size : Nat) (b : List (List Nat)) : Option (Nat × Nat) :=
  (cellsRM size).find? fun rc => bget b rc.1 rc.2 == 0

mutual

/-- The recursive backtracking `solve(board)` of `generateCustom`, returning
the solved board instead of mutating in place.  `ctr` counts the `shuffle`
invocations so far (indexing into the random stream), and `fuel` bounds the
recursion depth; since every recursive call fills one more cell, any fuel
exceeding the number of empty cells is enough and the `none`-on-zero-fuel
branch is unreachable (proved below). -/
def solve (size boxRows boxCols : Nat) (rnd : Nat → Nat → Nat)
    (fuel ctr : Nat) (b : List (List Nat)) :
    Nat × Option (List (List Nat)) :=
  match fuel with
  | 0 => (ctr, none)
  | fuel' + 1 =>
    match findEmpty size b with
    | none => (ctr, some b)
    | some rc =>
      tryNums size boxRows boxCols rnd fuel' b rc.1 rc.2 (ctr + 1)
        (shuffle (rnd ctr) (List.range' 1 size))
termination_by (fuel, 0, 0)

/-- The `for (const n of nums)` loop inside `solve`: try each candidate in
order, recursing on success of the validity check, backtracking on a failed
recursive call. -/
def tryNums (size boxRows boxCols : Nat) (rnd : Nat → Nat → Nat)
    (fuel : Nat) (b : List (List Nat)) (r c ctr : Nat) (nums : List Nat) :
    Nat × Option (List (List Nat)) :=
  match nums with
  | [] => (ctr, none)
  | n :: ns =>
    if isValid size boxRows boxCols b r c n then
      match solve size boxRows boxCols rnd fuel (ctr) (bset b r c n) with
      | (ctr2, some sol) => (ctr2, some sol)
      | (ctr2, none) => tryNums size boxRows boxCols rnd fuel b r c ctr2 ns
    else tryNums size boxRows boxCols rnd fuel b r c ctr ns
termination_by (fuel, 1, nums.length)

end

/-- `Array.from({ length: size }, () => Array(size).fill(0))`. -/
def emptyBoard (size : Nat) : List (List Nat) :=
  List.replicate size (List.replicate size 0)

/-- `generateCustom(size, boxRows, boxCols, clues)`: solve an empty board,
flatten it to the solution string, then blank the first
`size*size - clues` positions of a shuffled position list.  The position
shuffle draws from the stream after all of `solve`'s shuffles. -/
def generateCustom (size boxRows boxCols clues : Nat)
    (rnd : Nat → Nat → Nat) : String × String :=
  let res := solve size boxRows boxCols rnd (size * size + 1) 0 (emptyBoard size)
  let board := match res.2 with
    | some b => b
    | none => emptyBoard size
  let solution := String.join (board.flatten.map (fun v => toString v))
  let positions := shuffle (rnd res.1) (List.range (size * size))
  let targetRemove := size * size - clues
  let puzzleBoard :=
    (positions.take targetRemove).foldl
      (fun pb pos => bset pb (pos / size) (pos % size) 0) board
  let puzzle :=
    String.join (puzzleBoard.flatten.map
      (fun v => if v == 0 then "-" else toString v))
  (puzzle, solution)

/-- Modelled from the spec: the curated external puzzle source
(`sudoku-gen`'s `getSudoku`, an npm dependency whose code is not part of
this repository).  Per the spec it supplies a curated 9×9 puzzle/solution
pair already in the shared encoding — 81 characters, row-major, digits
1..9, `-` for blanks, every non-blank puzzle cell agreeing with the
solution.  The difficulty argument only selects the curated bank and has no
further formalizable content, so both difficulties are modelled by one
fixed curated pair. -/
def getSudoku (difficulty : String) : String × String :=
  ("53--7----6--195----98----6-8---6---34--8-3--17---2---6-6----28----419--5----8--79",
   "534678912672195348198342567859761423426853791713924856961537284287419635345286179")

/-- `generatePuzzle(mode)`. -/
def generatePuzzle (mode : String) (rnd : Nat → Nat → Nat) : String × String :=
  if mode = "4" then generateCustom 4 2 2 8 rnd
  else if mode = "6" then generateCustom 6 2 3 18 rnd
  else if mode = "9expert" then getSudoku "expert"
  else getSudoku "medium"

/-- The grid size of each mode (spec §6). -/
def modeSize (mode : String) : Nat :=
  if mode = "4" then 4 else if mode = "6" then 6 else 9

/-! ## Board predicates -/

/-- The board is a `size × size` array. -/
def WellShaped (size : Nat) (b : List (List Nat)) : Prop :=
  b.length = size ∧ ∀ row ∈ b, row.length = size

/-- Every cell is empty or holds a digit `1..size`. -/
def CellsOk (size : Nat) (b : List (List Nat)) : Prop :=
  ∀ r < size, ∀ c < size,
    bget b r c = 0 ∨ (1 ≤ bget b r c ∧ bget b r c ≤ size)

/-- The cells of the box with box coordinates `(bI, bJ)`, in the scan order
of `isValid`'s box loop. -/
def boxCells (boxRows boxCols bI bJ : Nat) : List (Nat × Nat) :=
  (List.range boxRows).flatMap fun dr =>
    (List.range boxCols).map fun dc =>
      (bI * boxRows + dr, bJ * boxCols + dc)

/-- Occurrences of `v` in row `r`. -/
def cntRow (size : Nat) (b : List (List Nat)) (r v : Nat) : Nat :=
  (List.range size).countP fun c => bget b r c == v

/-- Occurrences of `v` in column `c`. -/
def cntCol (size : Nat) (b : List (List Nat)) (c v : Nat) : Nat :=
  (List.range size).countP fun r => bget b r c == v

/-- Occurrences of `v` in box `(bI, bJ)`. -/
def cntBox (boxRows boxCols : Nat) (b : List (List Nat)) (bI bJ v : Nat) : Nat :=
  (boxCells boxRows boxCols bI bJ).countP fun rc => bget b rc.1 rc.2 == v

/-- No digit repeats in any row, column or box. -/
def NoDups (size boxRows boxCols : Nat) (b : List (List Nat)) : Prop :=
  (∀ r < size, ∀ v, 1 ≤ v → v ≤ size → cntRow size b r v ≤ 1) ∧
  (∀ c < size, ∀ v, 1 ≤ v → v ≤ size → cntCol size b c v ≤ 1) ∧
  (∀ bI < size / boxRows, ∀ bJ < size / boxCols, ∀ v, 1 ≤ v → v ≤ size →
    cntBox boxRows boxCols b bI bJ v ≤ 1)

/-- The invariant maintained by `solve`. -/
def Inv (size boxRows boxCols : Nat) (b : List (List Nat)) : Prop :=
  WellShaped size b ∧ CellsOk size b ∧ NoDups size boxRows boxCols b

/-- No empty cell remains. -/
def Filled (size : Nat) (b : List (List Nat)) : Prop :=
  ∀ r < size, ∀ c < size, bget b r c ≠ 0

/-- A complete valid grid. -/
def IsSolution (size boxRows boxCols : Nat) (b : List (List Nat)) : Prop :=
  WellShaped size b ∧
  (∀ r < size, ∀ c < size, 1 ≤ bget b r c ∧ bget b r c ≤ size) ∧
  NoDups size boxRows boxCols b

/-- Every digit `1..size` appears exactly once in every row. -/
def RowsUnique (size : Nat) (b : List (List Nat)) : Prop :=
  ∀ r < size, ∀ v, 1 ≤ v → v ≤ size → cntRow size b r v = 1

/-- Every digit `1..size` appears exactly once in every column. -/
def ColsUnique (size : Nat) (b : List (List Nat)) : Prop :=
  ∀ c < size, ∀ v, 1 ≤ v → v ≤ size → cntCol size b c v = 1

/-- Every digit `1..size` appears exactly once in every
`boxRows × boxCols` box. -/
def BoxesUnique (size boxRows boxCols : Nat) (b : List (List Nat)) : Prop :=
  ∀ bI < size / boxRows, ∀ bJ < size / boxCols, ∀ v, 1 ≤ v → v ≤ size →
    cntBox boxRows boxCols b bI bJ v = 1

/-- `b` agrees with `s` on every non-empty cell. -/
def Agrees (size : Nat) (b s : List (List Nat)) : Prop :=
  ∀ r < size, ∀ c < size, bget b r c ≠ 0 → bget s r c = bget b r c

/-- Number of empty cells. -/
def zerosCnt (size : Nat) (b : List (List Nat)) : Nat :=
  (cellsRM size).countP fun rc => bget b rc.1 rc.2 == 0

/-- A concrete complete 4×4 grid with 2×2 boxes. -/
def sol4 : List (List Nat) :=
  [[1, 2, 3, 4], [3, 4, 1, 2], [2, 1, 4, 3], [4, 3, 2, 1]]

/-- A concrete complete 6×6 grid with 2×3 boxes. -/
def sol6 : List (List Nat) :=
  [[1, 2, 3, 4, 5, 6], [4, 5, 6, 1, 2, 3], [2, 3, 1, 5, 6, 4],
   [5, 6, 4, 2, 3, 1], [3, 1, 2, 6, 4, 5], [6, 4, 5, 3, 1, 2]]

/-- The character a cell digit renders to (`String(v)` for `1 ≤ v ≤ 9`). -/
def digitChar (d : Nat) : Char := Char.ofNat (48 + d)

/-- The well-formedness contract of a generated `{puzzle, solution}` pair
for a grid of `size²` cells: both strings have length `size²`, every
character is a digit `1..size` or the blank marker, and every non-blank
puzzle character agrees with the solution character at the same position. -/
def GoodPair (size : Nat) (ps : String × String) : Prop :=
  ps.1.length = size * size ∧ ps.2.length = size * size ∧
  (∀ ch ∈ ps.1.data, ch = '-' ∨ ∃ d ∈ List.range' 1 size, ch = digitChar d) ∧
  (∀ ch ∈ ps.2.data, ch = '-' ∨ ∃ d ∈ List.range' 1 size, ch = digitChar d) ∧
  (∀ i < size * size, ps.1.data.getD i '-' ≠ '-' →
    ps.1.data.getD i '-' = ps.2.data.getD i '-')

/-! ## State invariants and concrete scenario states -/

/-- `size(mode)²`, the shared cell count of a mode. -/
def sq (mode : String) : Nat := modeSize mode * modeSize mode

/-- The per-match length invariant: puzzle, solution and both progress
arrays have length `size(mode)²`. -/
def MatchLenOk (m : Match) : Prop :=
  m.puzzle.length = sq m.mode ∧ m.solution.length = sq m.mode ∧
  m.p1.progress.length = sq m.mode ∧ m.p2.progress.length = sq m.mode

/-- The length invariant of the registry: every stored match satisfies
`MatchLenOk`. -/
def lenInv (s : ServerState) : Prop :=
  ∀ e ∈ s.matchesMap, MatchLenOk e.2

/-- Every retained match is still playing. -/
def statusInv (s : ServerState) : Prop :=
  ∀ e ∈ s.matchesMap, e.2.status = "playing"

/-- The registry keys are pairwise distinct (a JS `Map` guarantee). -/
def keysNodup (s : ServerState) : Prop :=
  (s.matchesMap.map Prod.fst).Nodup

/-- The slot key `handleLeave` resolves for a bound socket. -/
def leaveKeyOf (m : Match) (sockId : String) : String :=
  if m.p1.id = sockId then "p1" else "p2"

/-- A fixed generated pair for the 4×4 mode, used by the concrete scenario
states (a valid output shape of `generateCustom 4 2 2 8`). -/
def gen4ex : String × String := ("1-3-3-1-2-4-4-2-", "1234341221434321")

/-- A playing two-cell match used as a concrete scenario (the tiny strings
keep the kernel computations in witnesses readable). -/
def exMatch : Match :=
  ⟨"m1", "4", "1-", "12", 1,
    ⟨"sockA", "pidA", "Alice", [some "1", some "-"]⟩,
    ⟨"sockB", "pidB", "Bob", [some "1", some "-"]⟩,
    "playing", false, false⟩

/-- A registry holding just `exMatch`. -/
def exState : ServerState := ⟨[("m1", exMatch)], [], [], [], []⟩

/-- First step of the C5 scenario: Alice queues up for mode 4. -/
def c5s1 : ServerState :=
  (findMatch initState "sa" (some "4") (some "Alice") (some "A") "mX" gen4ex true).1

/-- Second step: Bob pairs with Alice, creating match `mX`. -/
def c5s2 : ServerState :=
  (findMatch c5s1 "sb" (some "4") (some "Bob") (some "B") "mX" gen4ex true).1

/-- Third step: Bob writes at cell index 16 of the 16-cell grid. -/
def c5s3 : ServerState := (makeMove c5s2 "sb" "mX" 16 (some "9")).1

/-- First step of the C6 scenario: persistent id `X` queues for mode 4. -/
def c6s1 : ServerState :=
  (findMatch initState "s1" (some "4") (some "N") (some "X") "m1" ("", "") true).1

/-- Second step: the same persistent id queues for mode 6 as well. -/
def c6s2 : ServerState :=
  (findMatch c6s1 "s1" (some "6") (some "N") (some "X") "m2" ("", "") true).1

/-- C3 scenario: Alice (persistent id `X`) waits in the mode-4 queue. -/
def c3s1 : ServerState :=
  (findMatch initState "a" (some "4") (some "Alice") (some "X") "mZ" ("", "") true).1

/-- C3 scenario: Bob requests a match with the same persistent id `X`. -/
def c3res : ServerState × List Emit :=
  findMatch c3s1 "b" (some "4") (some "Bob") (some "X") "m9" ("", "") true

/-- C7 scenario: tickets of A then B wait in the mode-4 queue. -/
def c7state : ServerState :=
  ⟨[], [⟨"a", "pA", "An"⟩, ⟨"b", "pB", "Bn"⟩], [], [], []⟩

/-- Recognizer for `gameOver` events. -/
def isGameOverEv : Emit → Bool
  | Emit.gameOver _ _ _ _ => true
  | _ => false

/-! ## Helper lemmas: the registry primitives -/

theorem mapGet_set_self (l : List (String × Match)) (k : String) (v : Match) :
    mapGet (mapSet l k v) k = some v := by
  induction l with
  | nil => simp [mapSet, mapGet]
  | cons p t ih =>
    by_cases h : p.1 = k
    · simp [mapSet, h, mapGet]
    · simp [mapSet, h, mapGet, ih]

theorem mapGet_set_ne (l : List (String × Match)) (k k' : String) (v : Match)
    (h : k' ≠ k) : mapGet (mapSet l k v) k' = mapGet l k' := by
  induction l with
  | nil => simp [mapSet, mapGet, Ne.symm h]
  | cons p t ih =>
    by_cases h1 : p.1 = k
    · have h2 : p.1 ≠ k' := by rw [h1]; exact Ne.symm h
      simp [mapSet, h1, mapGet, Ne.symm h, h2]
    · by_cases h2 : p.1 = k'
      · simp [mapSet, h1, mapGet, h2, h]
      · simp [mapSet, h1, mapGet, h2, ih]

theorem mapGet_delete_self (l : List (String × Match)) (k : String) :
    mapGet (mapDelete l k) k = none := by
  induction l with
  | nil => simp [mapDelete, mapGet]
  | cons p t ih =>
    by_cases h : p.1 = k
    · simp [mapDelete, h, ih]
    · simp [mapDelete, h, mapGet, ih]

theorem mapGet_delete_ne (l : List (String × Match)) (k k' : String)
    (h : k' ≠ k) : mapGet (mapDelete l k) k' = mapGet l k' := by
  induction l with
  | nil => simp [mapDelete, mapGet]
  | cons p t ih =>
    by_cases h1 : p.1 = k
    · have h2 : p.1 ≠ k' := by rw [h1]; exact Ne.symm h
      rw [show mapDelete (p :: t) k = mapDelete t k by simp [mapDelete, h1],
        ih, show mapGet (p :: t) k' = mapGet t k' by simp [mapGet, h2]]
    · by_cases h2 : p.1 = k'
      · rw [show mapDelete (p :: t) k = p :: mapDelete t k by simp [mapDelete, h1]]
        simp [mapGet, h2]
      · rw [show mapDelete (p :: t) k = p :: mapDelete t k by simp [mapDelete, h1]]
        simp [mapGet, h2, ih]

theorem mem_mapSet (l : List (String × Match)) (k : String) (v : Match)
    (e : String × Match) (he : e ∈ mapSet l k v) : e ∈ l ∨ e = (k, v) := by
  induction l with
  | nil => simpa [mapSet] using he
  | cons p t ih =>
    by_cases h : p.1 = k
    · simp only [mapSet, h, if_pos rfl] at he
      rcases List.mem_cons.mp he with h1 | h1
      · right; exact h1
      · left; exact List.mem_cons_of_mem _ h1
    · simp only [mapSet, h, if_neg h] at he
      rcases List.mem_cons.mp he with h1 | h1
      · left; exact h1 ▸ List.mem_cons_self _ _
      · rcases ih h1 with h2 | h2
        · left; exact List.mem_cons_of_mem _ h2
        · right; exact h2

theorem mem_mapDelete (l : List (String × Match)) (k : String)
    (e : String × Match) (he : e ∈ mapDelete l k) : e ∈ l ∧ e.1 ≠ k := by
  induction l with
  | nil => simp [mapDelete] at he
  | cons p t ih =>
    by_cases h : p.1 = k
    · simp only [mapDelete, if_pos h] at he
      exact ⟨List.mem_cons_of_mem _ (ih he).1, (ih he).2⟩
    · simp only [mapDelete, if_neg h] at he
      rcases List.mem_cons.mp he with h1 | h1
      · exact ⟨h1 ▸ List.mem_cons_self _ _, h1 ▸ h⟩
      · exact ⟨List.mem_cons_of_mem _ (ih h1).1, (ih h1).2⟩

theorem mem_finish_sub (ms : List (String × Match)) (k : String) (v : Match)
    (e : String × Match) (he : e ∈ mapDelete (mapSet ms k v) k) : e ∈ ms := by
  obtain ⟨h1, h2⟩ := mem_mapDelete _ _ _ he
  rcases mem_mapSet _ _ _ _ h1 with h3 | h3
  · exact h3
  · exact absurd (congrArg Prod.fst h3) h2

theorem mapGet_some_mem (l : List (String × Match)) (k : String) (m : Match)
    (h : mapGet l k = some m) : (k, m) ∈ l := by
  induction l with
  | nil => simp [mapGet] at h
  | cons p t ih =>
    by_cases h1 : p.1 = k
    · simp only [mapGet, if_pos h1] at h
      have h2 : p.2 = m := by injection h
      have h3 : (k, m) = p := by rw [← h1, ← h2]
      exact List.mem_cons.mpr (Or.inl h3)
    · simp only [mapGet, if_neg h1] at h
      exact List.mem_cons_of_mem _ (ih h)

theorem mapGet_eq_of_mem_nodup (l : List (String × Match)) (k : String)
    (m : Match) (hnd : (l.map Prod.fst).Nodup) (hm : (k, m) ∈ l) :
    mapGet l k = some m := by
  induction l with
  | nil => simp at hm
  | cons p t ih =>
    rcases List.mem_cons.mp hm with h1 | h1
    · simp [mapGet, ← h1]
    · have hk : k ∈ t.map Prod.fst := List.mem_map.mpr ⟨(k, m), h1, rfl⟩
      have h2 : p.1 ≠ k := by
        intro hh
        exact (List.nodup_cons.mp hnd).1 (hh ▸ hk)
      simp only [mapGet, if_neg h2]
      exact ih (List.nodup_cons.mp hnd).2 h1

/-! ## Helper lemmas: slot selectors -/

@[simp] theorem setSlot_status (m : Match) (k : String) (sl : Slot) :
    (setSlot m k sl).status = m.status := by
  unfold setSlot; split <;> rfl

@[simp] theorem setSlot_mode (m : Match) (k : String) (sl : Slot) :
    (setSlot m k sl).mode = m.mode := by
  unfold setSlot; split <;> rfl

@[simp] theorem setSlot_puzzle (m : Match) (k : String) (sl : Slot) :
    (setSlot m k sl).puzzle = m.puzzle := by
  unfold setSlot; split <;> rfl

@[simp] theorem setSlot_solution (m : Match) (k : String) (sl : Slot) :
    (setSlot m k sl).solution = m.solution := by
  unfold setSlot; split <;> rfl

@[simp] theorem setTimeoutKey_status (m : Match) (k : String) (b : Bool) :
    (setTimeoutKey m k b).status = m.status := by
  unfold setTimeoutKey; split <;> rfl

@[simp] theorem setTimeoutKey_mode (m : Match) (k : String) (b : Bool) :
    (setTimeoutKey m k b).mode = m.mode := by
  unfold setTimeoutKey; split <;> rfl

@[simp] theorem setTimeoutKey_puzzle (m : Match) (k : String) (b : Bool) :
    (setTimeoutKey m k b).puzzle = m.puzzle := by
  unfold setTimeoutKey; split <;> rfl

@[simp] theorem setTimeoutKey_solution (m : Match) (k : String) (b : Bool) :
    (setTimeoutKey m k b).solution = m.solution := by
  unfold setTimeoutKey; split <;> rfl

@[simp] theorem setTimeoutKey_initialFilled (m : Match) (k : String) (b : Bool) :
    (setTimeoutKey m k b).initialFilled = m.initialFilled := by
  unfold setTimeoutKey; split <;> rfl

@[simp] theorem setTimeoutKey_p1 (m : Match) (k : String) (b : Bool) :
    (setTimeoutKey m k b).p1 = m.p1 := by
  unfold setTimeoutKey; split <;> rfl

@[simp] theorem setTimeoutKey_p2 (m : Match) (k : String) (b : Bool) :
    (setTimeoutKey m k b).p2 = m.p2 := by
  unfold setTimeoutKey; split <;> rfl

@[simp] theorem slotOf_setTimeoutKey (m : Match) (k k' : String) (b : Bool) :
    slotOf (setTimeoutKey m k b) k' = slotOf m k' := by
  unfold slotOf; split <;> simp

@[simp] theorem playerKeyByPid_setTimeoutKey (m : Match) (k : String) (b : Bool)
    (pid : String) :
    playerKeyByPid (setTimeoutKey m k b) pid = playerKeyByPid m pid := by
  unfold playerKeyByPid; simp

theorem playerKeyByConn_eq (m : Match) (sockId k : String)
    (hk : playerKeyByConn m sockId = some k) : k = "p1" ∨ k = "p2" := by
  unfold playerKeyByConn at hk
  by_cases h1 : m.p1.id = sockId
  · simp [h1] at hk; exact Or.inl hk.symm
  · by_cases h2 : m.p2.id = sockId
    · simp [h1, h2] at hk; exact Or.inr hk.symm
    · simp [h1, h2] at hk

theorem slotOf_setSlot_self (m : Match) (k : String) (sl : Slot)
    (hk : k = "p1" ∨ k = "p2") : slotOf (setSlot m k sl) k = sl := by
  rcases hk with h | h <;> subst h <;> simp [slotOf, setSlot]

theorem getQueue_setQueue (s : ServerState) (mode : String) (q : List Ticket) :
    getQueue (setQueue s mode q) mode = q := by
  unfold getQueue setQueue
  by_cases h4 : mode = "4" <;> by_cases h6 : mode = "6" <;>
    by_cases h9 : mode = "9" <;> simp [h4, h6, h9]

theorem getQueue_setMatches (s : ServerState) (mm : List (String × Match))
    (mode : String) : getQueue { s with matchesMap := mm } mode = getQueue s mode := by
  unfold getQueue
  split <;> rfl

/-! ## C1: completion detection in `makeMove` -/

/-- C1: in a playing match, a `makeMove` by a bound connection whose
resulting progress array, joined as a string, equals the solution string
exactly (originally-given cells included) emits exactly the one event list
`[gameOver "solved", lobbyStats]` naming this connection winner, removes
the match from the registry, and makes any subsequent `rejoinMatch` for
this match id answer `"Match not found or expired"`; a move whose joined
progress differs from the solution leaves the match in the registry with
status playing and emits no `gameOver`. -/
theorem makeMove_completion (s : ServerState) (matchId sockId : String)
    (m : Match) (index : Nat) (value : Option String) (k : String)
    (hm : mapGet s.matchesMap matchId = some m)
    (hst : m.status = "playing")
    (hk : playerKeyByConn m sockId = some k) :
    (progJoin (jsArraySet (slotOf m k).progress index (orDash value)) = m.solution →
      (makeMove s sockId matchId index value).2 =
        [Emit.gameOver matchId sockId (slotOf m k).name "solved",
         Emit.lobbyStats] ∧
      mapGet (makeMove s sockId matchId index value).1.matchesMap matchId = none ∧
      ∀ sock2 pid2,
        rejoinMatch (makeMove s sockId matchId index value).1 sock2 matchId pid2 =
          ((makeMove s sockId matchId index value).1,
            [Emit.errorEv sock2 "Match not found or expired"])) ∧
    (progJoin (jsArraySet (slotOf m k).progress index (orDash value)) ≠ m.solution →
      (makeMove s sockId matchId index value).2 =
        [Emit.playerProgress matchId sockId
          (filledCount (jsArraySet (slotOf m k).progress index (orDash value)))
          m.initialFilled index (jsFalsy value), Emit.lobbyStats] ∧
      ∃ m1, mapGet (makeMove s sockId matchId index value).1.matchesMap matchId
            = some m1 ∧
        m1.status = "playing" ∧
        slotOf m1 k =
          { slotOf m k with
            progress := jsArraySet (slotOf m k).progress index (orDash value) }) := by
  constructor
  · intro hsol
    simp only [makeMove, hm]
    rw [if_neg (show ¬(m.status ≠ "playing") by simp [hst])]
    simp only [hk]
    rw [if_pos hsol]
    refine ⟨rfl, mapGet_delete_self _ _, ?_⟩
    intro sock2 pid2
    simp only [rejoinMatch]
    rw [show mapGet (mapDelete (mapSet s.matchesMap matchId
        { setSlot m k { slotOf m k with
            progress := jsArraySet (slotOf m k).progress index (orDash value) }
          with status := "finished" }) matchId) matchId = none from
      mapGet_delete_self _ _]
  · intro hsol
    simp only [makeMove, hm]
    rw [if_neg (show ¬(m.status ≠ "playing") by simp [hst])]
    simp only [hk]
    rw [if_neg hsol]
    refine ⟨rfl, ?_⟩
    refine ⟨setSlot m k { slotOf m k with
      progress := jsArraySet (slotOf m k).progress index (orDash value) },
      mapGet_set_self _ _ _, by simp [hst], ?_⟩
    exact slotOf_setSlot_self _ _ _ (playerKeyByConn_eq _ _ _ hk)

/-- C1 witness: Bob fills the last open cell of the two-cell scenario match
with the correct digit and wins; a rejoin afterwards reports NotFound. -/
theorem makeMove_completion_witness :
    progJoin (jsArraySet (slotOf exMatch "p2").progress 1 (orDash (some "2"))) =
      exMatch.solution ∧
    (makeMove exState "sockB" "m1" 1 (some "2")).2 =
      [Emit.gameOver "m1" "sockB" "Bob" "solved", Emit.lobbyStats] ∧
    mapGet (makeMove exState "sockB" "m1" 1 (some "2")).1.matchesMap "m1" = none ∧
    rejoinMatch (makeMove exState "sockB" "m1" 1 (some "2")).1 "z" "m1" "pidB" =
      ((makeMove exState "sockB" "m1" 1 (some "2")).1,
        [Emit.errorEv "z" "Match not found or expired"]) := by
  have h := makeMove_completion exState "m1" "sockB" exMatch 1 (some "2") "p2"
    (by decide) (by decide) (by decide)
  have h2 := h.1 (by decide)
  exact ⟨by decide, h2.1, h2.2.1, h2.2.2 "z" "pidB"⟩

/-! ## C3: the self-pair branch of `findMatch` -/

/-- C3 (amended): when the dequeued candidate's persistent id equals the
requester's, no match is created and no event is emitted, but the ticket
pushed back onto the queue carries the requester's connection id and
display name (only the shared persistent id survives); the candidate's
connection id and name are discarded. -/
theorem findMatch_selfPair (s : ServerState) (sockId : String)
    (mode name playerId : Option String) (mid : String) (gen : String × String)
    (onl : Bool) (t : Ticket)
    (hlast : (getQueue s (gridModeOf mode)).getLast? = some t)
    (hpid : t.pid = pidOf sockId playerId) :
    findMatch s sockId mode name playerId mid gen onl =
      (setQueue s (gridModeOf mode)
        ((getQueue s (gridModeOf mode)).dropLast ++
          [⟨sockId, pidOf sockId playerId, nameOf name⟩]), []) := by
  simp only [findMatch]
  rw [hlast]
  simp [hpid]

/-- C3 witness: the amended statement at the concrete Alice/Bob scenario. -/
theorem findMatch_selfPair_witness :
    (getQueue c3s1 (gridModeOf (some "4"))).getLast? =
      some ⟨"a", "X", "Alice"⟩ ∧
    (⟨"a", "X", "Alice"⟩ : Ticket).pid = pidOf "b" (some "X") ∧
    findMatch c3s1 "b" (some "4") (some "Bob") (some "X") "m9" ("", "") true =
      (setQueue c3s1 (gridModeOf (some "4"))
        ((getQueue c3s1 (gridModeOf (some "4"))).dropLast ++
          [⟨"b", pidOf "b" (some "X"), nameOf (some "Bob")⟩]), []) :=
  ⟨by decide, by decide,
    findMatch_selfPair c3s1 "b" (some "4") (some "Bob") (some "X") "m9"
      ("", "") true ⟨"a", "X", "Alice"⟩ (by decide) (by decide)⟩

/-- C3 counterexample: with Alice's ticket `⟨"a", "X", "Alice"⟩` waiting,
a request by socket `"b"` named Bob with the same persistent id `X` leaves
the queue holding Bob's ticket `⟨"b", "X", "Bob"⟩` — not the candidate's
ticket with the candidate's connection id and name, as the claim states. -/
theorem findMatch_selfPair_cex :
    c3s1.q4 = [⟨"a", "X", "Alice"⟩] ∧
    c3res.1.q4 = [⟨"b", "X", "Bob"⟩] ∧
    (⟨"b", "X", "Bob"⟩ : Ticket) ≠ ⟨"a", "X", "Alice"⟩ ∧
    c3res.2 = [] := by decide

/-! ## C7: LIFO pairing -/

/-- C7: with tickets A then B waiting in a mode's queue, a third request
pairs with B — the most recently enqueued ticket — leaving A still waiting:
the queue shrinks to `rest ++ [a]` and the created match has B in slot `p1`
and the requester in slot `p2`. -/
theorem findMatch_lifo (s : ServerState) (sockId : String)
    (mode name playerId : Option String) (mid : String) (gen : String × String)
    (onl : Bool) (rest : List Ticket) (a b : Ticket)
    (hq : getQueue s (gridModeOf mode) = rest ++ [a, b])
    (hpid : b.pid ≠ pidOf sockId playerId) :
    getQueue (findMatch s sockId mode name playerId mid gen onl).1
        (gridModeOf mode) = rest ++ [a] ∧
    ∃ mNew,
      mapGet (findMatch s sockId mode name playerId mid gen onl).1.matchesMap
          mid = some mNew ∧
      mNew.p1.id = b.id ∧ mNew.p1.pid = b.pid ∧ mNew.p1.name = b.name ∧
      mNew.p2.id = sockId ∧ mNew.p2.pid = pidOf sockId playerId ∧
      mNew.status = "playing" := by
  have hq2 : getQueue s (gridModeOf mode) = (rest ++ [a]) ++ [b] := by
    rw [hq]; simp
  have hlast : (getQueue s (gridModeOf mode)).getLast? = some b := by
    rw [hq2]; exact List.getLast?_concat _
  have hdrop : (getQueue s (gridModeOf mode)).dropLast = rest ++ [a] := by
    rw [hq2]; exact List.dropLast_concat
  simp only [findMatch]
  rw [hlast]
  simp only [hdrop]
  rw [if_neg (show ¬(b.pid = pidOf sockId playerId) from hpid)]
  constructor
  · rw [getQueue_setMatches, getQueue_setQueue]
  · exact ⟨_, mapGet_set_self _ _ _, rfl, rfl, rfl, rfl, rfl, rfl⟩

/-- C7 witness: with A then B waiting in the mode-4 queue, requester C
pairs with B and A keeps waiting. -/
theorem findMatch_lifo_witness :
    getQueue c7state (gridModeOf (some "4")) =
      [] ++ [⟨"a", "pA", "An"⟩, ⟨"b", "pB", "Bn"⟩] ∧
    (⟨"b", "pB", "Bn"⟩ : Ticket).pid ≠ pidOf "c" (some "pC") ∧
    getQueue (findMatch c7state "c" (some "4") (some "Cn") (some "pC") "mC"
        gen4ex true).1 (gridModeOf (some "4")) = [] ++ [⟨"a", "pA", "An"⟩] ∧
    ∃ mNew,
      mapGet (findMatch c7state "c" (some "4") (some "Cn") (some "pC") "mC"
          gen4ex true).1.matchesMap "mC" = some mNew ∧
      mNew.p1.id = "b" ∧ mNew.p1.pid = "pB" ∧ mNew.p1.name = "Bn" ∧
      mNew.p2.id = "c" ∧ mNew.p2.pid = pidOf "c" (some "pC") ∧
      mNew.status = "playing" := by
  have h := findMatch_lifo c7state "c" (some "4") (some "Cn") (some "pC") "mC"
    gen4ex true [] ⟨"a", "pA", "An"⟩ ⟨"b", "pB", "Bn"⟩ (by decide) (by decide)
  exact ⟨by decide, by decide, h.1, h.2⟩

/-! ## Helper lemmas: the `handleLeave` registry walk -/

theorem leaveKeyOf_or (m : Match) (sockId : String) :
    leaveKeyOf m sockId = "p1" ∨ leaveKeyOf m sockId = "p2" := by
  unfold leaveKeyOf; split
  · exact Or.inl rfl
  · exact Or.inr rfl

theorem setTimeoutKey_flag (m : Match) (k : String) (b : Bool)
    (hk : k = "p1" ∨ k = "p2") :
    (if k = "p1" then (setTimeoutKey m k b).timeoutP1
      else (setTimeoutKey m k b).timeoutP2) = b := by
  rcases hk with h | h <;> subst h <;> simp [setTimeoutKey]

theorem leaveStep_evs_mem (sockId : String) (imm : Bool)
    (acc : List (String × Match) × List Emit × Bool) (e : String × Match)
    (ev : Emit) (h : ev ∈ acc.2.1) :
    ev ∈ (leaveStep sockId imm acc e).2.1 := by
  simp only [leaveStep]
  split
  · split
    · split
      · exact List.mem_append_left _ h
      · exact h
    · exact h
  · exact h

theorem foldl_leaveStep_evs_mem (sockId : String) (imm : Bool)
    (l : List (String × Match)) (acc : List (String × Match) × List Emit × Bool)
    (ev : Emit) (h : ev ∈ acc.2.1) :
    ev ∈ (l.foldl (leaveStep sockId imm) acc).2.1 := by
  induction l generalizing acc with
  | nil => exact h
  | cons e t ih => exact ih _ (leaveStep_evs_mem _ _ _ _ _ h)

theorem leaveStep_get_ne (sockId : String) (imm : Bool)
    (acc : List (String × Match) × List Emit × Bool) (e : String × Match)
    (mid : String) (h : e.1 ≠ mid) :
    mapGet (leaveStep sockId imm acc e).1 mid = mapGet acc.1 mid := by
  have hne : mid ≠ e.1 := Ne.symm h
  simp only [leaveStep, finishMatch]
  split
  · split
    · split
      · show mapGet (mapDelete (mapSet acc.1 e.1 _) e.1) mid = mapGet acc.1 mid
        rw [mapGet_delete_ne _ _ _ hne, mapGet_set_ne _ _ _ _ hne]
      · show mapGet (mapSet acc.1 e.1 _) mid = mapGet acc.1 mid
        rw [mapGet_set_ne _ _ _ _ hne]
    · rfl
  · rfl

theorem foldl_leaveStep_get_ne (sockId : String) (imm : Bool)
    (l : List (String × Match)) (acc : List (String × Match) × List Emit × Bool)
    (mid : String) (h : ∀ e ∈ l, e.1 ≠ mid) :
    mapGet (l.foldl (leaveStep sockId imm) acc).1 mid = mapGet acc.1 mid := by
  induction l generalizing acc with
  | nil => rfl
  | cons e t ih =>
    rw [List.foldl_cons, ih _ (fun x hx => h x (List.mem_cons_of_mem _ hx)),
      leaveStep_get_ne _ _ _ _ _ (h e (List.mem_cons_self _ _))]

theorem leaveStep_hit (sockId : String) (imm : Bool)
    (acc : List (String × Match) × List Emit × Bool) (mid : String) (m : Match)
    (hbound : m.p1.id = sockId ∨ m.p2.id = sockId)
    (hst : m.status = "playing") :
    leaveStep sockId imm acc (mid, m) =
      if imm then
        ((finishMatch acc.1 mid m (otherKey (leaveKeyOf m sockId))
            "opponent_disconnected").1,
          acc.2.1 ++ [(finishMatch acc.1 mid m (otherKey (leaveKeyOf m sockId))
            "opponent_disconnected").2],
          true)
      else
        (mapSet acc.1 mid (setTimeoutKey m (leaveKeyOf m sockId) true),
          acc.2.1, acc.2.2) := by
  simp only [leaveStep, leaveKeyOf]
  rw [if_pos hbound, if_pos hst]

theorem foldl_leaveStep_processed (sockId : String) (imm : Bool)
    (l : List (String × Match)) (acc : List (String × Match) × List Emit × Bool)
    (mid : String) (m : Match)
    (hnd : (l.map Prod.fst).Nodup) (hmem : (mid, m) ∈ l)
    (hbound : m.p1.id = sockId ∨ m.p2.id = sockId)
    (hst : m.status = "playing") :
    (imm = true →
      mapGet (l.foldl (leaveStep sockId imm) acc).1 mid = none ∧
      Emit.gameOver mid (slotOf m (otherKey (leaveKeyOf m sockId))).id
          (slotOf m (otherKey (leaveKeyOf m sockId))).name
          "opponent_disconnected"
        ∈ (l.foldl (leaveStep sockId imm) acc).2.1) ∧
    (imm = false →
      mapGet (l.foldl (leaveStep sockId imm) acc).1 mid =
        some (setTimeoutKey m (leaveKeyOf m sockId) true)) := by
  induction l generalizing acc with
  | nil => simp at hmem
  | cons e t ih =>
    rcases List.mem_cons.mp hmem with he | he
    · have hkeys : mid ∉ t.map Prod.fst := by
        have := (List.nodup_cons.mp hnd).1
        rw [← he] at this
        exact this
      have hne : ∀ x ∈ t, x.1 ≠ mid := by
        intro x hx hq
        exact hkeys (List.mem_map.mpr ⟨x, hx, hq⟩)
      have hstep : leaveStep sockId imm acc e =
          (if imm then
            ((finishMatch acc.1 mid m (otherKey (leaveKeyOf m sockId))
                "opponent_disconnected").1,
              acc.2.1 ++ [(finishMatch acc.1 mid m
                (otherKey (leaveKeyOf m sockId)) "opponent_disconnected").2],
              true)
          else
            (mapSet acc.1 mid (setTimeoutKey m (leaveKeyOf m sockId) true),
              acc.2.1, acc.2.2)) := by
        rw [← he]
        exact leaveStep_hit sockId imm acc mid m hbound hst
      constructor
      · intro himm
        subst himm
        rw [List.foldl_cons, hstep]
        simp only [if_pos rfl]
        constructor
        · rw [foldl_leaveStep_get_ne _ _ _ _ _ hne]
          exact mapGet_delete_self _ _
        · refine foldl_leaveStep_evs_mem _ _ _ _ _ ?_
          simp only [finishMatch]
          exact List.mem_append_right _ (List.mem_cons_self _ _)
      · intro himm
        subst himm
        rw [List.foldl_cons, hstep]
        rw [if_neg Bool.false_ne_true, foldl_leaveStep_get_ne _ _ _ _ _ hne]
        exact mapGet_set_self _ _ _
    · have hne : e.1 ≠ mid := by
        intro hq
        have : mid ∈ t.map Prod.fst := List.mem_map.mpr ⟨(mid, m), he, rfl⟩
        exact (List.nodup_cons.mp hnd).1 (hq ▸ this)
      rw [List.foldl_cons]
      exact ih _ (List.nodup_cons.mp hnd).2 he

/-- Both states reached by `handleLeave` share the original registry as the
fold's starting accumulator. -/
theorem handleLeave_matches (s : ServerState) (sockId : String) (imm : Bool) :
    (handleLeave s sockId imm).1.matchesMap =
      (s.matchesMap.foldl (leaveStep sockId imm)
        (s.matchesMap, [],
          queueHit s.q4 sockId || queueHit s.q6 sockId ||
          queueHit s.q9 sockId || queueHit s.q9expert sockId)).1 := rfl

/-! ## C2: explicit leave of a playing match -/

/-- C2 (amended): an explicit `leaveMatch` by a connection bound to a slot
of a playing match immediately finishes the match — the other slot's
connection is announced winner in a `gameOver` event and the match is
removed from the registry in the same handler step — but the emitted reason
is `"opponent_disconnected"`, the same string used for grace-period
forfeits; no `"opponent_left"` reason exists in the code. -/
theorem leaveMatch_forfeit (s : ServerState) (sockId mid : String) (m : Match)
    (hnd : keysNodup s) (hm : mapGet s.matchesMap mid = some m)
    (hst : m.status = "playing")
    (hbound : m.p1.id = sockId ∨ m.p2.id = sockId) :
    mapGet (handleLeave s sockId true).1.matchesMap mid = none ∧
    Emit.gameOver mid (slotOf m (otherKey (leaveKeyOf m sockId))).id
        (slotOf m (otherKey (leaveKeyOf m sockId))).name
        "opponent_disconnected"
      ∈ (handleLeave s sockId true).2 := by
  have hp := foldl_leaveStep_processed sockId true s.matchesMap
    (s.matchesMap, [],
      queueHit s.q4 sockId || queueHit s.q6 sockId ||
      queueHit s.q9 sockId || queueHit s.q9expert sockId)
    mid m hnd (mapGet_some_mem _ _ _ hm) hbound hst
  obtain ⟨h1, h2⟩ := hp.1 rfl
  refine ⟨by rw [handleLeave_matches]; exact h1, ?_⟩
  exact List.mem_append_left _ h2

/-- C2 witness: Alice leaves the scenario match; Bob is announced winner
with reason `"opponent_disconnected"` and the match is gone. -/
theorem leaveMatch_forfeit_witness :
    keysNodup exState ∧
    mapGet (handleLeave exState "sockA" true).1.matchesMap "m1" = none ∧
    Emit.gameOver "m1" "sockB" "Bob" "opponent_disconnected"
      ∈ (handleLeave exState "sockA" true).2 := by
  have h := leaveMatch_forfeit exState "sockA" "m1" exMatch
    (by unfold keysNodup; decide) (by decide) (by decide) (by decide)
  exact ⟨by unfold keysNodup; decide, h.1, h.2⟩

/-- C2 counterexample: the full event list of an explicit leave of the
scenario match carries reason `"opponent_disconnected"`, not the claimed
`"opponent_left"` — no event with reason `"opponent_left"` is emitted. -/
theorem leaveMatch_forfeit_cex :
    (handleLeave exState "sockA" true).2 =
      [Emit.gameOver "m1" "sockB" "Bob" "opponent_disconnected",
       Emit.lobbyStats] ∧
    ("opponent_disconnected" : String) ≠ "opponent_left" := by decide

/-! ## C4: disconnect grace period, rejoin, timer expiry -/

/-- C4: a transport-level disconnect of a slot of a playing match arms that
slot's grace timer and leaves the match playing with its progress intact;
a `rejoinMatch` with that slot's persistent id before the timer fires
cancels the timer, rebinds the slot to the new connection, keeps status
playing and returns that slot's progress array unchanged; the timer firing
while the match is still playing finishes it with `gameOver` reason
`"opponent_disconnected"` naming the other slot winner and removes it from
the registry.  (The pending flag models the fixed-duration `setTimeout`
handle; `gracePeriodMs = 10000`.) -/
theorem disconnect_grace (s : ServerState) (sockId mid : String) (m : Match)
    (hnd : keysNodup s) (hm : mapGet s.matchesMap mid = some m)
    (hst : m.status = "playing")
    (hbound : m.p1.id = sockId ∨ m.p2.id = sockId)
    (hpidkey : playerKeyByPid m (slotOf m (leaveKeyOf m sockId)).pid =
      some (leaveKeyOf m sockId)) :
    mapGet (handleLeave s sockId false).1.matchesMap mid =
      some (setTimeoutKey m (leaveKeyOf m sockId) true) ∧
    timerPending (handleLeave s sockId false).1 mid (leaveKeyOf m sockId)
      = true ∧
    (∀ newSock,
      (rejoinMatch (handleLeave s sockId false).1 newSock mid
          (slotOf m (leaveKeyOf m sockId)).pid).2 =
        [Emit.matchFound newSock mid m.puzzle m.mode (leaveKeyOf m sockId)
          (slotOf m (otherKey (leaveKeyOf m sockId))).name
          (some (slotOf m (leaveKeyOf m sockId)).progress)
          (some ((filledCount
              (slotOf m (otherKey (leaveKeyOf m sockId))).progress : Int) -
            (m.initialFilled : Int))),
         Emit.lobbyStats] ∧
      ∃ m2,
        mapGet (rejoinMatch (handleLeave s sockId false).1 newSock mid
            (slotOf m (leaveKeyOf m sockId)).pid).1.matchesMap mid = some m2 ∧
        m2.status = "playing" ∧
        timerPending (rejoinMatch (handleLeave s sockId false).1 newSock mid
            (slotOf m (leaveKeyOf m sockId)).pid).1 mid (leaveKeyOf m sockId)
          = false ∧
        (slotOf m2 (leaveKeyOf m sockId)).id = newSock ∧
        (slotOf m2 (leaveKeyOf m sockId)).progress =
          (slotOf m (leaveKeyOf m sockId)).progress) ∧
    ((timerFire (handleLeave s sockId false).1 mid (leaveKeyOf m sockId)).2 =
        [Emit.gameOver mid (slotOf m (otherKey (leaveKeyOf m sockId))).id
          (slotOf m (otherKey (leaveKeyOf m sockId))).name
          "opponent_disconnected",
         Emit.lobbyStats] ∧
      mapGet (timerFire (handleLeave s sockId false).1 mid
          (leaveKeyOf m sockId)).1.matchesMap mid = none) := by
  have hlk := leaveKeyOf_or m sockId
  have hp := foldl_leaveStep_processed sockId false s.matchesMap
    (s.matchesMap, [],
      queueHit s.q4 sockId || queueHit s.q6 sockId ||
      queueHit s.q9 sockId || queueHit s.q9expert sockId)
    mid m hnd (mapGet_some_mem _ _ _ hm) hbound hst
  have h1 : mapGet (handleLeave s sockId false).1.matchesMap mid =
      some (setTimeoutKey m (leaveKeyOf m sockId) true) := by
    rw [handleLeave_matches]; exact hp.2 rfl
  have h2 : timerPending (handleLeave s sockId false).1 mid
      (leaveKeyOf m sockId) = true := by
    unfold timerPending
    rw [h1]
    exact setTimeoutKey_flag _ _ _ hlk
  refine ⟨h1, h2, ?_, ?_⟩
  · intro newSock
    have hpid2 : playerKeyByPid (setTimeoutKey m (leaveKeyOf m sockId) true)
        (slotOf m (leaveKeyOf m sockId)).pid = some (leaveKeyOf m sockId) := by
      rw [playerKeyByPid_setTimeoutKey]; exact hpidkey
    simp only [rejoinMatch]
    rw [h1]
    simp only [hpid2]
    constructor
    · simp
    · refine ⟨_, mapGet_set_self _ _ _, by simp [hst], ?_, ?_, ?_⟩
      · unfold timerPending
        rw [mapGet_set_self]
        exact setTimeoutKey_flag _ _ _ hlk
      · rw [slotOf_setTimeoutKey, slotOf_setSlot_self _ _ _ hlk]
      · rw [slotOf_setTimeoutKey, slotOf_setSlot_self _ _ _ hlk]
        simp
  · simp only [timerFire, h1]
    rw [if_pos (by simp [hst] :
      (setTimeoutKey m (leaveKeyOf m sockId) true).status = "playing")]
    constructor
    · simp only [finishMatch]
      simp
    · simp only [finishMatch]
      exact mapGet_delete_self _ _

/-- C4 witness: Alice's socket drops, her slot's timer is armed; rejoining
as `"sockC"` with her persistent id restores a playing match with the same
progress; alternatively the timer fires and Bob wins. -/
theorem disconnect_grace_witness :
    mapGet (handleLeave exState "sockA" false).1.matchesMap "m1" =
      some (setTimeoutKey exMatch "p1" true) ∧
    timerPending (handleLeave exState "sockA" false).1 "m1" "p1" = true ∧
    ((rejoinMatch (handleLeave exState "sockA" false).1 "sockC" "m1"
        "pidA").2 =
      [Emit.matchFound "sockC" "m1" "1-" "4" "p1" "Bob"
        (some [some "1", some "-"]) (some 0),
       Emit.lobbyStats] ∧
    ∃ m2,
      mapGet (rejoinMatch (handleLeave exState "sockA" false).1 "sockC" "m1"
          "pidA").1.matchesMap "m1" = some m2 ∧
      m2.status = "playing" ∧
      timerPending (rejoinMatch (handleLeave exState "sockA" false).1 "sockC"
          "m1" "pidA").1 "m1" "p1" = false ∧
      (slotOf m2 "p1").id = "sockC" ∧
      (slotOf m2 "p1").progress = [some "1", some "-"]) ∧
    (timerFire (handleLeave exState "sockA" false).1 "m1" "p1").2 =
      [Emit.gameOver "m1" "sockB" "Bob" "opponent_disconnected",
       Emit.lobbyStats] ∧
    mapGet (timerFire (handleLeave exState "sockA" false).1 "m1"
        "p1").1.matchesMap "m1" = none := by
  have h := disconnect_grace exState "sockA" "m1" exMatch
    (by unfold keysNodup; decide) (by decide) (by decide) (by decide)
    (by decide)
  have hkey : leaveKeyOf exMatch "sockA" = "p1" := by decide
  rw [hkey] at h
  obtain ⟨h1, h2, h3, h4⟩ := h
  have h5 := h3 "sockC"
  refine ⟨h1, h2, ⟨?_, ?_⟩, ?_, ?_⟩
  · have := h5.1
    simpa using this
  · obtain ⟨m2, hm2⟩ := h5.2
    exact ⟨m2, hm2.1, hm2.2.1, hm2.2.2.1, hm2.2.2.2.1, by
      rw [hm2.2.2.2.2]; rfl⟩
  · have := h4.1
    simpa using this
  · exact h4.2

/-! ## Fold preservation, `setQueue` transparency -/

theorem matchesMap_setQueue (s : ServerState) (mode : String) (q : List Ticket) :
    (setQueue s mode q).matchesMap = s.matchesMap := by
  unfold setQueue
  split <;> try rfl
  split <;> try rfl
  split <;> rfl

theorem foldl_leaveStep_mem_pres (P : Match → Prop)
    (hP : ∀ m k b, P m → P (setTimeoutKey m k b))
    (sockId : String) (imm : Bool) (l : List (String × Match))
    (acc : List (String × Match) × List Emit × Bool)
    (hacc : ∀ e ∈ acc.1, P e.2) (hl : ∀ e ∈ l, P e.2) :
    ∀ e ∈ (l.foldl (leaveStep sockId imm) acc).1, P e.2 := by
  induction l generalizing acc with
  | nil => exact hacc
  | cons e t ih =>
    rw [List.foldl_cons]
    refine ih _ ?_ (fun x hx => hl x (List.mem_cons_of_mem _ hx))
    intro x hx
    revert hx
    simp only [leaveStep, finishMatch]
    split
    · split
      · split
        · intro hx
          exact hacc x (mem_finish_sub _ _ _ _ hx)
        · intro hx
          rcases mem_mapSet _ _ _ _ hx with h1 | h1
          · exact hacc x h1
          · rw [h1]
            exact hP _ _ _ (hl e (List.mem_cons_self _ _))
      · exact fun hx => hacc x hx
    · exact fun hx => hacc x hx

/-! ## C5: the shared-length invariant -/

/-- C5 (amended): the shared-length invariant — puzzle, solution and both
progress arrays of every registered match have length `size(mode)²` — is
established by `findMatch` whenever the generated pair has the right
lengths, and is preserved by `rejoinMatch`, by `handleLeave`, by the grace
timer, and by `makeMove` for any in-range cell index
(`cellIndex < size(mode)²`).  It is not preserved by `makeMove` with an
arbitrary cell index: a JS write past the end grows the progress array
(see the counterexample). -/
theorem length_invariant_preservation :
    (∀ s sockId mode name playerId mid gen onl, lenInv s →
      gen.1.length = sq (gridModeOf mode) →
      gen.2.length = sq (gridModeOf mode) →
      lenInv (findMatch s sockId mode name playerId mid gen onl).1) ∧
    (∀ s sockId matchId playerId, lenInv s →
      lenInv (rejoinMatch s sockId matchId playerId).1) ∧
    (∀ s sockId matchId index value, lenInv s →
      (∀ m, mapGet s.matchesMap matchId = some m → index < sq m.mode) →
      lenInv (makeMove s sockId matchId index value).1) ∧
    (∀ s sockId imm, lenInv s → lenInv (handleLeave s sockId imm).1) ∧
    (∀ s mid pk, lenInv s → lenInv (timerFire s mid pk).1) := by
  have hsetT : ∀ m k b, MatchLenOk m → MatchLenOk (setTimeoutKey m k b) := by
    intro m k b hm
    obtain ⟨h1, h2, h3, h4⟩ := hm
    unfold setTimeoutKey
    split <;> exact ⟨h1, h2, h3, h4⟩
  refine ⟨?_, ?_, ?_, ?_, ?_⟩
  · intro s sockId mode name playerId mid gen onl hinv hp1 hp2
    rcases hq : (getQueue s (gridModeOf mode)).getLast? with _ | t
    · simp only [findMatch, hq]
      intro e he
      rw [matchesMap_setQueue] at he
      exact hinv e he
    · simp only [findMatch, hq]
      by_cases hp : t.pid = pidOf sockId playerId
      · rw [if_pos hp]
        intro e he
        rw [matchesMap_setQueue] at he
        exact hinv e he
      · rw [if_neg hp]
        intro e he
        simp only [matchesMap_setQueue] at he
        rcases mem_mapSet _ _ _ _ he with h1 | h1
        · exact hinv e h1
        · rw [h1]
          have hlen : gen.1.data.length = sq (gridModeOf mode) := hp1
          exact ⟨hp1, hp2, by simpa using hlen, by simpa using hlen⟩
  · intro s sockId matchId playerId hinv
    rcases hg : mapGet s.matchesMap matchId with _ | m
    · simp only [rejoinMatch, hg]
      exact hinv
    · rcases hk : playerKeyByPid m playerId with _ | k
      · simp only [rejoinMatch, hg, hk]
        exact hinv
      · have hkor : k = "p1" ∨ k = "p2" := by
          unfold playerKeyByPid at hk
          by_cases h1 : m.p1.pid = playerId
          · simp [h1] at hk; exact Or.inl hk.symm
          · by_cases h2 : m.p2.pid = playerId
            · simp [h1, h2] at hk; exact Or.inr hk.symm
            · simp [h1, h2] at hk
        simp only [rejoinMatch, hg, hk]
        intro e he
        rcases mem_mapSet _ _ _ _ he with h1 | h1
        · exact hinv e h1
        · rw [h1]
          have hm := hinv _ (mapGet_some_mem _ _ _ hg)
          obtain ⟨hh1, hh2, hh3, hh4⟩ := hm
          refine hsetT _ _ _ ?_
          rcases hkor with h | h <;> subst h <;>
            exact ⟨by simpa using hh1, by simpa using hh2,
              by simp [setSlot, slotOf]; try exact hh3,
              by simp [setSlot, slotOf]; try exact hh4⟩
  · intro s sockId matchId index value hinv hidx
    rcases hg : mapGet s.matchesMap matchId with _ | m
    · simp only [makeMove, hg]
      exact hinv
    · by_cases hst : m.status = "playing"
      · rcases hk : playerKeyByConn m sockId with _ | k
        · simp only [makeMove, hg]
          rw [if_neg (show ¬(m.status ≠ "playing") by simp [hst])]
          simp only [hk]
          exact hinv
        · have hkor := playerKeyByConn_eq _ _ _ hk
          have hm := hinv _ (mapGet_some_mem _ _ _ hg)
          obtain ⟨hh1, hh2, hh3, hh4⟩ := hm
          have hplen : (slotOf m k).progress.length = sq m.mode := by
            rcases hkor with h | h <;> subst h <;> simp [slotOf]
            · exact hh3
            · exact hh4
          have hset : (jsArraySet (slotOf m k).progress index
              (orDash value)).length = sq m.mode := by
            unfold jsArraySet
            rw [if_pos (by rw [hplen]; exact hidx m hg)]
            rw [List.length_set, hplen]
          simp only [makeMove, hg]
          rw [if_neg (show ¬(m.status ≠ "playing") by simp [hst])]
          simp only [hk]
          split
          · intro e he
            exact hinv e (mem_finish_sub _ _ _ _ he)
          · intro e he
            rcases mem_mapSet _ _ _ _ he with h1 | h1
            · exact hinv e h1
            · rw [h1]
              refine ⟨by simpa using hh1, by simpa using hh2, ?_, ?_⟩ <;>
                rcases hkor with h | h <;> subst h <;>
                  simp [setSlot, slotOf] <;> first
                    | exact hset
                    | exact hh3
                    | exact hh4
      · simp only [makeMove, hg]
        rw [if_pos (show m.status ≠ "playing" from hst)]
        exact hinv
  · intro s sockId imm hinv
    rw [lenInv, handleLeave_matches]
    refine foldl_leaveStep_mem_pres MatchLenOk hsetT sockId imm _ _ ?_ ?_ <;>
      exact fun e he => hinv e he
  · intro s mid pk hinv
    rcases hg : mapGet s.matchesMap mid with _ | m
    · simp only [timerFire, hg]
      exact hinv
    · by_cases hst : m.status = "playing"
      · simp only [timerFire, hg]
        rw [if_pos hst]
        intro e he
        simp only [finishMatch] at he
        exact hinv e (mem_finish_sub _ _ _ _ he)
      · simp only [timerFire, hg]
        rw [if_neg hst]
        exact hinv

/-- C5 witness: the invariant holds after the two pairing steps of the
concrete mode-4 scenario and is preserved by an in-range move. -/
theorem length_invariant_preservation_witness :
    lenInv c5s2 ∧ (∀ m, mapGet c5s2.matchesMap "mX" = some m → 3 < sq m.mode) ∧
    lenInv (makeMove c5s2 "sb" "mX" 3 (some "2")).1 := by
  refine ⟨?_, ?_, ?_⟩
  · unfold lenInv MatchLenOk; decide
  · unfold sq modeSize; decide
  · exact length_invariant_preservation.2.2.1 c5s2 "sb" "mX" 3 (some "2")
      (by unfold lenInv MatchLenOk; decide) (by unfold sq modeSize; decide)

/-- C5 counterexample: the reachable scenario state `c5s2` satisfies the
length invariant, but `makeMove` at cell index 16 of the 16-cell grid grows
Bob's progress array to 17 entries, so the invariant does not survive an
arbitrary `cellIndex`. -/
theorem length_invariant_cex :
    Reachable c5s3 ∧ lenInv c5s2 ∧ ¬ lenInv c5s3 ∧
    (mapGet c5s3.matchesMap "mX").map (fun m => m.p2.progress.length) =
      some 17 ∧
    sq "4" = 16 := by
  refine ⟨?_, ?_, ?_, ?_, ?_⟩
  · exact Reachable.makeMove _ _ _ _ _
      (Reachable.findMatch _ _ _ _ _ _ _ _
        (Reachable.findMatch _ _ _ _ _ _ _ _ Reachable.init))
  · unfold lenInv MatchLenOk; decide
  · unfold lenInv MatchLenOk; decide
  · decide
  · decide

/-! ## C6: per-pid uniqueness of tickets and slots -/

/-- C6 (amended): `findMatch` performs no global deduplication — its only
safeguard is the self-pair check on the dequeued candidate, so a single
`findMatch` never creates a match whose two slots share one persistent id:
every match in the resulting registry either was already there or has
distinct slot pids.  The claimed global invariant fails: a persistent id
that is already waiting can acquire a second ticket in another mode's
queue (see the counterexample). -/
theorem findMatch_no_selfmatch (s : ServerState) (sockId : String)
    (mode name playerId : Option String) (mid : String) (gen : String × String)
    (onl : Bool) (e : String × Match)
    (he : e ∈ (findMatch s sockId mode name playerId mid gen onl).1.matchesMap) :
    e ∈ s.matchesMap ∨ e.2.p1.pid ≠ e.2.p2.pid := by
  rcases hq : (getQueue s (gridModeOf mode)).getLast? with _ | t
  · simp only [findMatch, hq] at he
    rw [matchesMap_setQueue] at he
    exact Or.inl he
  · simp only [findMatch, hq] at he
    by_cases hp : t.pid = pidOf sockId playerId
    · rw [if_pos hp] at he
      rw [matchesMap_setQueue] at he
      exact Or.inl he
    · rw [if_neg hp] at he
      simp only [matchesMap_setQueue] at he
      rcases mem_mapSet _ _ _ _ he with h1 | h1
      · exact Or.inl h1
      · right
        rw [h1]
        exact hp

/-- C6 witness: a `findMatch` that only enqueues (empty mode-4 queue)
retains the existing scenario match, which the theorem then covers. -/
theorem findMatch_no_selfmatch_witness :
    ("m1", exMatch) ∈
      (findMatch exState "sockZ" (some "4") none none "mQ" ("", "")
        true).1.matchesMap ∧
    (("m1", exMatch) ∈ exState.matchesMap ∨
      exMatch.p1.pid ≠ exMatch.p2.pid) :=
  ⟨by decide, findMatch_no_selfmatch exState "sockZ" (some "4") none none "mQ"
    ("", "") true ("m1", exMatch) (by decide)⟩

/-- C6 counterexample: from the initial state, persistent id `X` requests a
mode-4 match (enqueued) and then a mode-6 match (enqueued again) — the
reachable state `c6s2` holds one ticket owned by `X` in each of the two
queues, violating the claimed at-most-one-ticket invariant. -/
theorem duplicate_tickets_cex :
    Reachable c6s2 ∧
    c6s2.q4.countP (fun t => t.pid == "X") = 1 ∧
    c6s2.q6.countP (fun t => t.pid == "X") = 1 := by
  refine ⟨?_, by decide, by decide⟩
  exact Reachable.findMatch _ _ _ _ _ _ _ _
    (Reachable.findMatch _ _ _ _ _ _ _ _ Reachable.init)

/-! ## C10: the registry only retains playing matches -/

/-- C10: in every reachable state, every match still present in the
registry has status `"playing"`: each code path that marks a match finished
(solved completion, explicit leave, grace-timer expiry) deletes it from the
map in the same handler step, so `makeMove` and `rejoinMatch` can never
observe a retained finished match. -/
theorem registry_playing (s : ServerState) (hs : Reachable s) : statusInv s := by
  induction hs with
  | init => intro e he; simp [initState] at he
  | findMatch s sockId mode name playerId mid gen onl _ ih =>
    rcases hq : (getQueue s (gridModeOf mode)).getLast? with _ | t
    · simp only [findMatch, hq]
      intro e he
      rw [matchesMap_setQueue] at he
      exact ih e he
    · simp only [findMatch, hq]
      by_cases hp : t.pid = pidOf sockId playerId
      · rw [if_pos hp]
        intro e he
        rw [matchesMap_setQueue] at he
        exact ih e he
      · rw [if_neg hp]
        intro e he
        simp only [matchesMap_setQueue] at he
        rcases mem_mapSet _ _ _ _ he with h1 | h1
        · exact ih e h1
        · rw [h1]
  | rejoinMatch s sockId matchId playerId _ ih =>
    rcases hg : mapGet s.matchesMap matchId with _ | m
    · simp only [rejoinMatch, hg]
      exact ih
    · rcases hk : playerKeyByPid m playerId with _ | k
      · simp only [rejoinMatch, hg, hk]
        exact ih
      · simp only [rejoinMatch, hg, hk]
        intro e he
        rcases mem_mapSet _ _ _ _ he with h1 | h1
        · exact ih e h1
        · rw [h1]
          show (setTimeoutKey (setSlot m k _) k false).status = "playing"
          rw [setTimeoutKey_status, setSlot_status]
          exact ih _ (mapGet_some_mem _ _ _ hg)
  | makeMove s sockId matchId index value _ ih =>
    rcases hg : mapGet s.matchesMap matchId with _ | m
    · simp only [makeMove, hg]
      exact ih
    · by_cases hst : m.status = "playing"
      · rcases hk : playerKeyByConn m sockId with _ | k
        · simp only [makeMove, hg]
          rw [if_neg (show ¬(m.status ≠ "playing") by simp [hst])]
          simp only [hk]
          exact ih
        · simp only [makeMove, hg]
          rw [if_neg (show ¬(m.status ≠ "playing") by simp [hst])]
          simp only [hk]
          split
          · intro e he
            exact ih e (mem_finish_sub _ _ _ _ he)
          · intro e he
            rcases mem_mapSet _ _ _ _ he with h1 | h1
            · exact ih e h1
            · rw [h1]
              show (setSlot m k _).status = "playing"
              rw [setSlot_status]
              exact hst
      · simp only [makeMove, hg]
        rw [if_pos (show m.status ≠ "playing" from hst)]
        exact ih
  | leaveMatch s sockId _ ih =>
    unfold statusInv
    rw [handleLeave_matches]
    exact foldl_leaveStep_mem_pres (fun m => m.status = "playing")
      (fun m k b h => by simpa using h) _ _ _ _ ih ih
  | disconnect s sockId _ ih =>
    unfold statusInv
    rw [handleLeave_matches]
    exact foldl_leaveStep_mem_pres (fun m => m.status = "playing")
      (fun m k b h => by simpa using h) _ _ _ _ ih ih
  | timerFire s mid pk _ hpend ih =>
    rcases hg : mapGet s.matchesMap mid with _ | m
    · simp only [timerFire, hg]
      exact ih
    · by_cases hst : m.status = "playing"
      · simp only [timerFire, hg]
        rw [if_pos hst]
        intro e he
        simp only [finishMatch] at he
        exact ih e (mem_finish_sub _ _ _ _ he)
      · simp only [timerFire, hg]
        rw [if_neg hst]
        exact ih

/-- C10 witness: the reachable two-player scenario state satisfies the
invariant. -/
theorem registry_playing_witness : statusInv c5s2 :=
  registry_playing c5s2
    (Reachable.findMatch _ _ _ _ _ _ _ _
      (Reachable.findMatch _ _ _ _ _ _ _ _ Reachable.init))

/-! ## Shuffle: Fisher–Yates produces a permutation -/

theorem count_set_add {α : Type} [DecidableEq α] :
    ∀ (l : List α) (b x : α) (i : Nat) (hi : i < l.length),
      (l.set i b).count x + (if l[i] = x then 1 else 0) =
        l.count x + (if b = x then 1 else 0) := by
  intro l
  induction l with
  | nil => intro b x i hi; simp at hi
  | cons a t ih =>
    intro b x i hi
    cases i with
    | zero =>
      show (b :: t).count x + (if a = x then 1 else 0) =
        (a :: t).count x + (if b = x then 1 else 0)
      rw [List.count_cons, List.count_cons]
      by_cases hax : a = x <;> by_cases hbx : b = x <;>
        simp [hax, hbx]
    | succ i =>
      have hi' : i < t.length := by simpa using hi
      show (a :: t.set i b).count x + (if t[i] = x then 1 else 0) =
        (a :: t).count x + (if b = x then 1 else 0)
      rw [List.count_cons, List.count_cons]
      have := ih b x i hi'
      by_cases hax : a = x <;> simp [hax] <;> omega

theorem swapL_perm {α : Type} [DecidableEq α] (l : List α) (i j : Nat) :
    List.Perm (swapL l i j) l := by
  unfold swapL
  cases hi : l[i]? with
  | none => exact List.Perm.refl l
  | some a =>
    cases hj : l[j]? with
    | none => exact List.Perm.refl l
    | some b =>
      obtain ⟨hi2, hia⟩ := List.getElem?_eq_some_iff.mp hi
      obtain ⟨hj2, hjb⟩ := List.getElem?_eq_some_iff.mp hj
      show List.Perm ((l.set i b).set j a) l
      rw [List.perm_iff_count]
      intro x
      have hjlen : j < (l.set i b).length := by simpa using hj2
      have e1 := count_set_add (l.set i b) a x j hjlen
      have e2 := count_set_add l b x i hi2
      by_cases hij : i = j
      · subst hij
        have hab : a = b := by rw [← hia, ← hjb]
        subst hab
        have hg2 : (l.set i a)[i] = a := List.getElem_set_self hjlen
        rw [hg2] at e1
        rw [hia] at e2
        omega
      · have hg2 : (l.set i b)[j] = b := by
          rw [List.getElem_set_ne hij]; exact hjb
        rw [hg2] at e1
        rw [hia] at e2
        omega

theorem shuffleAux_perm {α : Type} [DecidableEq α] (rnd : Nat → Nat) :
    ∀ (i : Nat) (l : List α), List.Perm (shuffleAux rnd i l) l := by
  intro i
  induction i with
  | zero => intro l; exact List.Perm.refl l
  | succ i ih =>
    intro l
    exact (ih _).trans (swapL_perm _ _ _)

theorem shuffle_perm {α : Type} [DecidableEq α] (rnd : Nat → Nat)
    (l : List α) : List.Perm (shuffle rnd l) l :=
  shuffleAux_perm rnd _ l

/-! ## Board basics -/

theorem bget_bset_self (size : Nat) (b : List (List Nat)) (r c v : Nat)
    (hws : WellShaped size b) (hr : r < size) (hc : c < size) :
    bget (bset b r c v) r c = v := by
  obtain ⟨hlen, hrows⟩ := hws
  have hrb : r < b.length := by rw [hlen]; exact hr
  have hrowlen : (b.getD r []).length = size := by
    rw [List.getD_eq_getElem b [] hrb]
    exact hrows _ (List.getElem_mem _)
  have hcb : c < ((b.getD r []).set c v).length := by
    rw [List.length_set, hrowlen]; exact hc
  have hrb2 : r < (b.set r ((b.getD r []).set c v)).length := by
    rw [List.length_set]; exact hrb
  show ((b.set r ((b.getD r []).set c v)).getD r []).getD c 0 = v
  rw [List.getD_eq_getElem _ [] hrb2, List.getElem_set_self hrb2,
    List.getD_eq_getElem _ 0 hcb, List.getElem_set_self hcb]

theorem bget_bset_ne (b : List (List Nat)) (r c v r2 c2 : Nat)
    (h : ¬(r2 = r ∧ c2 = c)) :
    bget (bset b r c v) r2 c2 = bget b r2 c2 := by
  show ((b.set r ((b.getD r []).set c v)).getD r2 []).getD c2 0 =
    (b.getD r2 []).getD c2 0
  by_cases hrr : r2 = r
  · subst hrr
    have hcc : c2 ≠ c := fun hc2 => h ⟨rfl, hc2⟩
    by_cases hrb : r2 < b.length
    · have hrb2 : r2 < (b.set r2 ((b.getD r2 []).set c v)).length := by
        rw [List.length_set]; exact hrb
      rw [List.getD_eq_getElem _ [] hrb2, List.getElem_set_self hrb2]
      rw [List.getD_eq_getElem?_getD, List.getElem?_set_ne (Ne.symm hcc),
        ← List.getD_eq_getElem?_getD]
    · rw [List.set_eq_of_length_le (by omega)]
  · rw [List.getD_eq_getElem?_getD
        (b.set r ((b.getD r []).set c v)) r2 [],
      List.getElem?_set_ne (fun hh => hrr hh.symm),
      ← List.getD_eq_getElem?_getD]

theorem WellShaped_bset (size : Nat) (b : List (List Nat)) (r c v : Nat)
    (hws : WellShaped size b) : WellShaped size (bset b r c v) := by
  obtain ⟨hlen, hrows⟩ := hws
  by_cases hrb : r < b.length
  · refine ⟨by simp [bset, hlen], ?_⟩
    intro row hrow
    rcases List.mem_or_eq_of_mem_set hrow with h1 | h1
    · exact hrows _ h1
    · rw [h1, List.length_set, List.getD_eq_getElem _ _ hrb]
      exact hrows _ (List.getElem_mem _)
  · unfold bset
    rw [List.set_eq_of_length_le (by omega)]
    exact ⟨hlen, hrows⟩

/-! ## Counting machinery -/

theorem countP_update {α : Type} (l : List α) (p q : α → Bool) (x : α)
    (hnd : l.Nodup) (hx : x ∈ l) (hagree : ∀ y ∈ l, y ≠ x → p y = q y) :
    l.countP q + (if p x then 1 else 0) =
      l.countP p + (if q x then 1 else 0) := by
  induction l with
  | nil => simp at hx
  | cons a t ih =>
    rw [List.countP_cons, List.countP_cons]
    rcases List.mem_cons.mp hx with h1 | h1
    · subst h1
      have hxt : x ∉ t := (List.nodup_cons.mp hnd).1
      have ht : t.countP q = t.countP p := by
        refine (List.countP_congr ?_).symm
        intro y hy
        rw [hagree y (List.mem_cons_of_mem _ hy)
          (fun he => hxt (he ▸ hy))]
      rw [ht]
      omega
    · have ha : a ≠ x := fun he => (List.nodup_cons.mp hnd).1 (he ▸ h1)
      rw [hagree a (List.mem_cons_self _ _) ha]
      have := ih (List.nodup_cons.mp hnd).2 h1
        (fun y hy hyx => hagree y (List.mem_cons_of_mem _ hy) hyx)
      omega

theorem countP_lt_flip {α : Type} (l : List α) (p q : α → Bool) (x : α)
    (hnd : l.Nodup) (hx : x ∈ l) (hpx : p x = true) (hqx : q x = false)
    (hagree : ∀ y ∈ l, y ≠ x → p y = q y) : l.countP q < l.countP p := by
  have h := countP_update l p q x hnd hx hagree
  rw [hpx, hqx] at h
  simp at h
  omega

theorem two_le_countP {α : Type} (l : List α) (p : α → Bool) (x y : α)
    (hx : x ∈ l) (hy : y ∈ l) (hxy : x ≠ y) (hpx : p x = true)
    (hpy : p y = true) : 2 ≤ l.countP p := by
  induction l with
  | nil => simp at hx
  | cons a t ih =>
    rw [List.countP_cons]
    rcases List.mem_cons.mp hx with h1 | h1 <;>
      rcases List.mem_cons.mp hy with h2 | h2
    · exact absurd (h1.trans h2.symm) hxy
    · subst h1
      have hpos : 0 < t.countP p := List.countP_pos_iff.mpr ⟨y, h2, hpy⟩
      rw [hpx, if_pos rfl]
      omega
    · subst h2
      have hpos : 0 < t.countP p := List.countP_pos_iff.mpr ⟨x, h1, hpx⟩
      rw [hpy, if_pos rfl]
      omega
    · have := ih h1 h2
      omega

/-! ## The row-major cell list and the box cell lists -/

theorem mem_cellsRM (size r c : Nat) :
    (r, c) ∈ cellsRM size ↔ r < size ∧ c < size := by
  unfold cellsRM
  rw [List.mem_flatMap]
  constructor
  · rintro ⟨a, ha, hmem⟩
    rw [List.mem_map] at hmem
    obtain ⟨c2, hc2, heq⟩ := hmem
    have h1 : a = r := congrArg Prod.fst heq
    have h2 : c2 = c := congrArg Prod.snd heq
    subst h1; subst h2
    exact ⟨List.mem_range.mp ha, List.mem_range.mp hc2⟩
  · rintro ⟨hr, hc⟩
    exact ⟨r, List.mem_range.mpr hr,
      List.mem_map.mpr ⟨c, List.mem_range.mpr hc, rfl⟩⟩

theorem nodup_cellsRM (size : Nat) : (cellsRM size).Nodup := by
  unfold cellsRM
  rw [List.nodup_flatMap]
  constructor
  · intro r _
    refine List.Nodup.map_on ?_ (List.nodup_range size)
    intro c1 _ c2 _ h
    exact congrArg Prod.snd h
  · refine (List.pairwise_lt_range size).imp ?_
    intro r1 r2 hlt x hx1 hx2
    rw [List.mem_map] at hx1 hx2
    obtain ⟨c1, _, rfl⟩ := hx1
    obtain ⟨c2, _, heq⟩ := hx2
    have := congrArg Prod.fst heq
    simp at this
    omega

theorem length_cellsRM (size : Nat) : (cellsRM size).length = size * size := by
  unfold cellsRM
  rw [List.flatMap]
  rw [List.length_flatten, List.map_map]
  have hmap : (List.range size).map
      (List.length ∘ fun r => (List.range size).map fun c => (r, c)) =
      List.replicate size size := by
    rw [List.eq_replicate_iff]
    refine ⟨by simp, ?_⟩
    intro b hb
    rw [List.mem_map] at hb
    obtain ⟨r, _, rfl⟩ := hb
    simp
  rw [hmap, List.sum_replicate, smul_eq_mul]

theorem mem_boxCells (bR bC bI bJ x y : Nat) :
    (x, y) ∈ boxCells bR bC bI bJ ↔
      ∃ dr, dr < bR ∧ ∃ dc, dc < bC ∧ x = bI * bR + dr ∧ y = bJ * bC + dc := by
  unfold boxCells
  rw [List.mem_flatMap]
  constructor
  · rintro ⟨dr, hdr, hmem⟩
    rw [List.mem_map] at hmem
    obtain ⟨dc, hdc, heq⟩ := hmem
    exact ⟨dr, List.mem_range.mp hdr, dc, List.mem_range.mp hdc,
      (congrArg Prod.fst heq).symm, (congrArg Prod.snd heq).symm⟩
  · rintro ⟨dr, hdr, dc, hdc, rfl, rfl⟩
    exact ⟨dr, List.mem_range.mpr hdr,
      List.mem_map.mpr ⟨dc, List.mem_range.mpr hdc, rfl⟩⟩

theorem nodup_boxCells (bR bC bI bJ : Nat) :
    (boxCells bR bC bI bJ).Nodup := by
  unfold boxCells
  rw [List.nodup_flatMap]
  constructor
  · intro dr _
    refine List.Nodup.map_on ?_ (List.nodup_range bC)
    intro c1 _ c2 _ h
    have := congrArg Prod.snd h
    simp at this
    omega
  · refine (List.pairwise_lt_range bR).imp ?_
    intro d1 d2 hlt x hx1 hx2
    rw [List.mem_map] at hx1 hx2
    obtain ⟨c1, _, rfl⟩ := hx1
    obtain ⟨c2, _, heq⟩ := hx2
    have := congrArg Prod.fst heq
    simp at this
    omega

theorem length_boxCells (bR bC bI bJ : Nat) :
    (boxCells bR bC bI bJ).length = bR * bC := by
  unfold boxCells
  rw [List.flatMap]
  rw [List.length_flatten, List.map_map]
  have hmap : (List.range bR).map
      (List.length ∘ fun dr => (List.range bC).map fun dc =>
        (bI * bR + dr, bJ * bC + dc)) = List.replicate bR bC := by
    rw [List.eq_replicate_iff]
    refine ⟨by simp, ?_⟩
    intro b hb
    rw [List.mem_map] at hb
    obtain ⟨dr, _, rfl⟩ := hb
    simp
  rw [hmap, List.sum_replicate, smul_eq_mul]

theorem div_index_eq (k q d : Nat) (hk : 0 < k) (hd : d < k) :
    (q * k + d) / k = q := by
  have he : q * k + d = d + k * q := by ring
  rw [he, Nat.add_mul_div_left _ _ hk, Nat.div_eq_of_lt hd]
  omega

theorem mod_index_eq (k q d : Nat) (hd : d < k) : (q * k + d) % k = d := by
  have he : q * k + d = d + k * q := by ring
  rw [he, Nat.add_mul_mod_self_left, Nat.mod_eq_of_lt hd]

theorem mem_boxCells_self (bR bC r c : Nat) (hbR : 0 < bR) (hbC : 0 < bC) :
    (r, c) ∈ boxCells bR bC (r / bR) (c / bC) := by
  rw [mem_boxCells]
  refine ⟨r % bR, Nat.mod_lt _ hbR, c % bC, Nat.mod_lt _ hbC, ?_, ?_⟩
  · have h := Nat.div_add_mod r bR
    rw [Nat.mul_comm (r / bR) bR]
    omega
  · have h := Nat.div_add_mod c bC
    rw [Nat.mul_comm (c / bC) bC]
    omega

theorem boxCells_coords (bR bC bI bJ x y : Nat) (hbR : 0 < bR) (hbC : 0 < bC)
    (hmem : (x, y) ∈ boxCells bR bC bI bJ) : x / bR = bI ∧ y / bC = bJ := by
  rw [mem_boxCells] at hmem
  obtain ⟨dr, hdr, dc, hdc, rfl, rfl⟩ := hmem
  exact ⟨div_index_eq _ _ _ hbR hdr, div_index_eq _ _ _ hbC hdc⟩

theorem boxCells_bounds (size bR bC bI bJ x y : Nat)
    (hbI : bI < size / bR) (hbJ : bJ < size / bC)
    (hmem : (x, y) ∈ boxCells bR bC bI bJ) : x < size ∧ y < size := by
  rw [mem_boxCells] at hmem
  obtain ⟨dr, hdr, dc, hdc, rfl, rfl⟩ := hmem
  constructor
  · have h1 : (bI + 1) * bR ≤ size / bR * bR :=
      Nat.mul_le_mul_right _ hbI
    have h2 : size / bR * bR ≤ size := Nat.div_mul_le_self _ _
    have h3 : (bI + 1) * bR = bI * bR + bR := by ring
    omega
  · have h1 : (bJ + 1) * bC ≤ size / bC * bC :=
      Nat.mul_le_mul_right _ hbJ
    have h2 : size / bC * bC ≤ size := Nat.div_mul_le_self _ _
    have h3 : (bJ + 1) * bC = bJ * bC + bC := by ring
    omega

/-! ## The `isValid` check -/

theorem isValid_iff (size bR bC : Nat) (b : List (List Nat)) (r c n : Nat) :
    isValid size bR bC b r c n = true ↔
      (∀ c2 < size, bget b r c2 ≠ n) ∧ (∀ r2 < size, bget b r2 c ≠ n) ∧
      (∀ dr < bR, ∀ dc < bC,
        bget b (r / bR * bR + dr) (c / bC * bC + dc) ≠ n) := by
  unfold isValid
  simp [List.all_eq_true, List.mem_range]
  tauto

/-! ## Count updates under a single placement -/

theorem cntRow_bset_same (size : Nat) (b : List (List Nat)) (r c n v : Nat)
    (hws : WellShaped size b) (hr : r < size) (hc : c < size) :
    cntRow size (bset b r c n) r v + (if bget b r c == v then 1 else 0) =
      cntRow size b r v + (if n == v then 1 else 0) := by
  unfold cntRow
  have hag : ∀ y ∈ List.range size, y ≠ c →
      (fun c2 => bget b r c2 == v) y =
        (fun c2 => bget (bset b r c n) r c2 == v) y := by
    intro y _ hyc
    simp only []
    rw [bget_bset_ne b r c n r y (fun hh => hyc hh.2)]
  have h := countP_update (List.range size) (fun c2 => bget b r c2 == v)
    (fun c2 => bget (bset b r c n) r c2 == v) c (List.nodup_range size)
    (List.mem_range.mpr hc) hag
  simp only [bget_bset_self size b r c n hws hr hc] at h
  exact h

theorem cntRow_bset_other (size : Nat) (b : List (List Nat)) (r c n v r2 : Nat)
    (h : r2 ≠ r) : cntRow size (bset b r c n) r2 v = cntRow size b r2 v := by
  unfold cntRow
  refine (List.countP_congr ?_).symm
  intro y _
  rw [bget_bset_ne b r c n r2 y (fun hh => h hh.1)]

theorem cntCol_bset_same (size : Nat) (b : List (List Nat)) (r c n v : Nat)
    (hws : WellShaped size b) (hr : r < size) (hc : c < size) :
    cntCol size (bset b r c n) c v + (if bget b r c == v then 1 else 0) =
      cntCol size b c v + (if n == v then 1 else 0) := by
  unfold cntCol
  have hag : ∀ y ∈ List.range size, y ≠ r →
      (fun r2 => bget b r2 c == v) y =
        (fun r2 => bget (bset b r c n) r2 c == v) y := by
    intro y _ hyr
    simp only []
    rw [bget_bset_ne b r c n y c (fun hh => hyr hh.1)]
  have h := countP_update (List.range size) (fun r2 => bget b r2 c == v)
    (fun r2 => bget (bset b r c n) r2 c == v) r (List.nodup_range size)
    (List.mem_range.mpr hr) hag
  simp only [bget_bset_self size b r c n hws hr hc] at h
  exact h

theorem cntCol_bset_other (size : Nat) (b : List (List Nat)) (r c n v c2 : Nat)
    (h : c2 ≠ c) : cntCol size (bset b r c n) c2 v = cntCol size b c2 v := by
  unfold cntCol
  refine (List.countP_congr ?_).symm
  intro y _
  rw [bget_bset_ne b r c n y c2 (fun hh => h hh.2)]

theorem cntBox_bset_same (size bR bC : Nat) (b : List (List Nat)) (r c n v : Nat)
    (hws : WellShaped size b) (hr : r < size) (hc : c < size)
    (hbR : 0 < bR) (hbC : 0 < bC) :
    cntBox bR bC (bset b r c n) (r / bR) (c / bC) v +
        (if bget b r c == v then 1 else 0) =
      cntBox bR bC b (r / bR) (c / bC) v + (if n == v then 1 else 0) := by
  unfold cntBox
  have hag : ∀ y ∈ boxCells bR bC (r / bR) (c / bC), y ≠ (r, c) →
      (fun rc => bget b rc.1 rc.2 == v) y =
        (fun rc => bget (bset b r c n) rc.1 rc.2 == v) y := by
    intro y _ hyx
    obtain ⟨y1, y2⟩ := y
    simp only []
    rw [bget_bset_ne b r c n y1 y2 (fun hh => hyx (by rw [hh.1, hh.2]))]
  have h := countP_update (boxCells bR bC (r / bR) (c / bC))
    (fun rc => bget b rc.1 rc.2 == v)
    (fun rc => bget (bset b r c n) rc.1 rc.2 == v) (r, c)
    (nodup_boxCells _ _ _ _) (mem_boxCells_self bR bC r c hbR hbC) hag
  simp only [bget_bset_self size b r c n hws hr hc] at h
  exact h

theorem cntBox_bset_other (bR bC : Nat) (b : List (List Nat)) (r c n v bI bJ : Nat)
    (hbR : 0 < bR) (hbC : 0 < bC) (h : ¬(bI = r / bR ∧ bJ = c / bC)) :
    cntBox bR bC (bset b r c n) bI bJ v = cntBox bR bC b bI bJ v := by
  unfold cntBox
  refine (List.countP_congr ?_).symm
  intro y hy
  obtain ⟨y1, y2⟩ := y
  simp only []
  rw [bget_bset_ne b r c n y1 y2 ?_]
  intro hh
  obtain ⟨rfl, rfl⟩ := hh
  obtain ⟨hc1, hc2⟩ := boxCells_coords bR bC bI bJ y1 y2 hbR hbC hy
  exact h ⟨hc1.symm, hc2.symm⟩

/-! ## One placement preserves the invariant -/

theorem inv_place (size bR bC : Nat) (b : List (List Nat)) (r c n : Nat)
    (hinv : Inv size bR bC b) (hr : r < size) (hc : c < size)
    (hempty : bget b r c = 0) (hn1 : 1 ≤ n) (hn2 : n ≤ size)
    (hval : isValid size bR bC b r c n = true)
    (hbR : 0 < bR) (hbC : 0 < bC) :
    Inv size bR bC (bset b r c n) := by
  obtain ⟨hws, hcells, hrow, hcol, hbox⟩ := hinv
  obtain ⟨hvrow, hvcol, hvbox⟩ := (isValid_iff size bR bC b r c n).mp hval
  have h0v : ∀ v : Nat, 1 ≤ v → ((0 : Nat) == v) = false := by
    intro v hv
    simp
    omega
  refine ⟨WellShaped_bset _ _ _ _ _ hws, ?_, ?_, ?_, ?_⟩
  · intro r2 hr2 c2 hc2
    by_cases hsame : r2 = r ∧ c2 = c
    · obtain ⟨rfl, rfl⟩ := hsame
      rw [bget_bset_self size b r2 c2 n hws hr hc]
      exact Or.inr ⟨hn1, hn2⟩
    · rw [bget_bset_ne b r c n r2 c2 hsame]
      exact hcells r2 hr2 c2 hc2
  · intro r2 hr2 v hv1 hv2
    by_cases hrr : r2 = r
    · subst hrr
      have hupd := cntRow_bset_same size b r2 c n v hws hr2 hc
      rw [hempty, h0v v hv1] at hupd
      by_cases hnv : n = v
      · subst hnv
        have hz : cntRow size b r2 n = 0 := by
          unfold cntRow
          rw [List.countP_eq_zero]
          intro c2 hc2
          simpa using hvrow c2 (List.mem_range.mp hc2)
        rw [hz] at hupd
        simp at hupd
        omega
      · have : (n == v) = false := by simp [hnv]
        rw [this] at hupd
        have := hrow r2 hr2 v hv1 hv2
        omega
    · rw [cntRow_bset_other size b r c n v r2 hrr]
      exact hrow r2 hr2 v hv1 hv2
  · intro c2 hc2 v hv1 hv2
    by_cases hcc : c2 = c
    · subst hcc
      have hupd := cntCol_bset_same size b r c2 n v hws hr hc2
      rw [hempty, h0v v hv1] at hupd
      by_cases hnv : n = v
      · subst hnv
        have hz : cntCol size b c2 n = 0 := by
          unfold cntCol
          rw [List.countP_eq_zero]
          intro r2 hr2
          simpa using hvcol r2 (List.mem_range.mp hr2)
        rw [hz] at hupd
        simp at hupd
        omega
      · have : (n == v) = false := by simp [hnv]
        rw [this] at hupd
        have := hcol c2 hc2 v hv1 hv2
        omega
    · rw [cntCol_bset_other size b r c n v c2 hcc]
      exact hcol c2 hc2 v hv1 hv2
  · intro bI hbI bJ hbJ v hv1 hv2
    by_cases hbb : bI = r / bR ∧ bJ = c / bC
    · obtain ⟨rfl, rfl⟩ := hbb
      have hupd := cntBox_bset_same size bR bC b r c n v hws hr hc hbR hbC
      rw [hempty, h0v v hv1] at hupd
      by_cases hnv : n = v
      · subst hnv
        have hz : cntBox bR bC b (r / bR) (c / bC) n = 0 := by
          unfold cntBox
          rw [List.countP_eq_zero]
          intro rc hrc
          obtain ⟨x, y⟩ := rc
          rw [mem_boxCells] at hrc
          obtain ⟨dr, hdr, dc, hdc, rfl, rfl⟩ := hrc
          have he1 : r / bR * bR = bR * (r / bR) := Nat.mul_comm _ _
          simpa using hvbox dr hdr dc hdc
        rw [hz] at hupd
        simp at hupd
        omega
      · have : (n == v) = false := by simp [hnv]
        rw [this] at hupd
        have := hbox _ hbI _ hbJ v hv1 hv2
        omega
    · rw [cntBox_bset_other bR bC b r c n v bI bJ hbR hbC hbb]
      exact hbox _ hbI _ hbJ v hv1 hv2

/-! ## `findEmpty` and the number of empty cells -/

theorem findEmpty_eq_none (size : Nat) (b : List (List Nat))
    (h : findEmpty size b = none) :
    ∀ r < size, ∀ c < size, bget b r c ≠ 0 := by
  unfold findEmpty at h
  rw [List.find?_eq_none] at h
  intro r hr c hc
  have := h (r, c) ((mem_cellsRM size r c).mpr ⟨hr, hc⟩)
  simpa using this

theorem findEmpty_eq_some (size : Nat) (b : List (List Nat)) (rc : Nat × Nat)
    (h : findEmpty size b = some rc) :
    rc.1 < size ∧ rc.2 < size ∧ bget b rc.1 rc.2 = 0 := by
  unfold findEmpty at h
  have h1 := List.find?_some h
  have h2 := List.mem_of_find?_eq_some h
  obtain ⟨x, y⟩ := rc
  rw [mem_cellsRM] at h2
  exact ⟨h2.1, h2.2, by simpa using h1⟩

theorem zerosCnt_bset_lt (size : Nat) (b : List (List Nat)) (r c n : Nat)
    (hws : WellShaped size b) (hr : r < size) (hc : c < size)
    (hempty : bget b r c = 0) (hn : 1 ≤ n) :
    zerosCnt size (bset b r c n) < zerosCnt size b := by
  unfold zerosCnt
  refine countP_lt_flip _ _ _ (r, c) (nodup_cellsRM size)
    ((mem_cellsRM size r c).mpr ⟨hr, hc⟩) ?_ ?_ ?_
  · simp [hempty]
  · simp only []
    rw [bget_bset_self size b r c n hws hr hc]
    simp
    omega
  · intro y _ hyx
    obtain ⟨y1, y2⟩ := y
    simp only []
    rw [bget_bset_ne b r c n y1 y2 (fun hh => hyx (by rw [hh.1, hh.2]))]

/-! ## Completeness of the backtracking search -/

theorem isValid_of_sol (size bR bC : Nat) (b s : List (List Nat))
    (hsol : IsSolution size bR bC s) (hag : Agrees size b s)
    (hbR : 0 < bR) (hbC : 0 < bC) (hRd : bR ∣ size) (hCd : bC ∣ size)
    (x y : Nat) (hx : x < size) (hy : y < size) (hempty : bget b x y = 0) :
    isValid size bR bC b x y (bget s x y) = true := by
  obtain ⟨hsws, hscells, hsrow, hscol, hsbox⟩ := hsol
  have hn0 : 1 ≤ bget s x y ∧ bget s x y ≤ size := hscells x hx y hy
  rw [isValid_iff]
  refine ⟨?_, ?_, ?_⟩
  · intro c2 hc2 hbad
    have hc2y : c2 ≠ y := by
      intro h; subst h; rw [hempty] at hbad; omega
    have hs2 : bget s x c2 = bget s x y := by
      rw [hag x hx c2 hc2 (by rw [hbad]; omega)]; exact hbad
    have h2 : 2 ≤ cntRow size s x (bget s x y) := by
      unfold cntRow
      refine two_le_countP _ _ c2 y (List.mem_range.mpr hc2)
        (List.mem_range.mpr hy) hc2y ?_ ?_
      · simp [hs2]
      · simp
    have := hsrow x hx (bget s x y) hn0.1 hn0.2
    omega
  · intro r2 hr2 hbad
    have hr2x : r2 ≠ x := by
      intro h; subst h; rw [hempty] at hbad; omega
    have hs2 : bget s r2 y = bget s x y := by
      rw [hag r2 hr2 y hy (by rw [hbad]; omega)]; exact hbad
    have h2 : 2 ≤ cntCol size s y (bget s x y) := by
      unfold cntCol
      refine two_le_countP _ _ r2 x (List.mem_range.mpr hr2)
        (List.mem_range.mpr hx) hr2x ?_ ?_
      · simp [hs2]
      · simp
    have := hscol y hy (bget s x y) hn0.1 hn0.2
    omega
  · intro dr hdr dc hdc hbad
    have hbI : x / bR < size / bR := Nat.div_lt_div_of_lt_of_dvd hRd hx
    have hbJ : y / bC < size / bC := Nat.div_lt_div_of_lt_of_dvd hCd hy
    have hx2mem : (x / bR * bR + dr, y / bC * bC + dc) ∈
        boxCells bR bC (x / bR) (y / bC) := by
      rw [mem_boxCells]
      exact ⟨dr, hdr, dc, hdc, rfl, rfl⟩
    have hx2 := boxCells_bounds size bR bC (x / bR) (y / bC) _ _ hbI hbJ hx2mem
    have hcell : (x, y) ∈ boxCells bR bC (x / bR) (y / bC) :=
      mem_boxCells_self bR bC x y hbR hbC
    have hne : (x / bR * bR + dr, y / bC * bC + dc) ≠ (x, y) := by
      intro h
      have h1 : x / bR * bR + dr = x := congrArg Prod.fst h
      have h2 : y / bC * bC + dc = y := congrArg Prod.snd h
      rw [h1, h2, hempty] at hbad
      omega
    have hs2 : bget s (x / bR * bR + dr) (y / bC * bC + dc) = bget s x y := by
      rw [hag _ hx2.1 _ hx2.2 (by rw [hbad]; omega)]; exact hbad
    have h2 : 2 ≤ cntBox bR bC s (x / bR) (y / bC) (bget s x y) := by
      unfold cntBox
      refine two_le_countP _ _ (x / bR * bR + dr, y / bC * bC + dc) (x, y)
        hx2mem hcell hne ?_ ?_
      · simp [hs2]
      · simp
    have := hsbox _ hbI _ hbJ (bget s x y) hn0.1 hn0.2
    omega

theorem tryNums_isSome (size bR bC : Nat) (rnd : Nat → Nat → Nat) (fuel : Nat)
    (b : List (List Nat)) (r c n0 : Nat)
    (hrec : ∀ ctr2,
      ((solve size bR bC rnd fuel ctr2 (bset b r c n0)).2).isSome = true)
    (hval : isValid size bR bC b r c n0 = true) :
    ∀ (nums : List Nat) (ctr : Nat), n0 ∈ nums →
      ((tryNums size bR bC rnd fuel b r c ctr nums).2).isSome = true := by
  intro nums
  induction nums with
  | nil => intro ctr h; simp at h
  | cons n ns ih =>
    intro ctr hmem
    by_cases hv : isValid size bR bC b r c n = true
    · simp only [tryNums, hv, if_true]
      rcases hs : solve size bR bC rnd fuel ctr (bset b r c n) with ⟨ctr2, osol⟩
      cases osol with
      | some sol => simp
      | none =>
        by_cases hnn : n = n0
        · subst hnn
          have hrc := hrec ctr
          rw [hs] at hrc
          simp at hrc
        · simp only []
          refine ih ctr2 ?_
          rcases List.mem_cons.mp hmem with h | h
          · exact absurd h.symm hnn
          · exact h
    · simp only [tryNums, hv, if_false]
      refine ih ctr ?_
      rcases List.mem_cons.mp hmem with h | h
      · exact absurd (h ▸ hval) hv
      · exact h

theorem solve_complete (size bR bC : Nat) (rnd : Nat → Nat → Nat)
    (s : List (List Nat)) (hsol : IsSolution size bR bC s)
    (hbR : 0 < bR) (hbC : 0 < bC) (hRd : bR ∣ size) (hCd : bC ∣ size) :
    ∀ (fuel : Nat) (b : List (List Nat)) (ctr : Nat),
      WellShaped size b → Agrees size b s → zerosCnt size b < fuel →
      ((solve size bR bC rnd fuel ctr b).2).isSome = true := by
  intro fuel
  induction fuel with
  | zero => intro b ctr _ _ h; omega
  | succ fuel ih =>
    intro b ctr hws hag hz
    rcases hfe : findEmpty size b with _ | rc
    · simp [solve, hfe]
    · obtain ⟨x, y⟩ := rc
      obtain ⟨hx, hy, hempty⟩ := findEmpty_eq_some size b (x, y) hfe
      have hn0 : 1 ≤ bget s x y ∧ bget s x y ≤ size := hsol.2.1 x hx y hy
      have hval : isValid size bR bC b x y (bget s x y) = true :=
        isValid_of_sol size bR bC b s hsol hag hbR hbC hRd hCd x y hx hy hempty
      have hmem : bget s x y ∈ shuffle (rnd ctr) (List.range' 1 size) := by
        have hperm := shuffle_perm (rnd ctr) (List.range' 1 size)
        refine hperm.mem_iff.mpr ?_
        rw [List.mem_range'_1]
        omega
      simp only [solve, hfe]
      refine tryNums_isSome size bR bC rnd fuel b x y (bget s x y) ?_ hval _
        (ctr + 1) hmem
      intro ctr2
      refine ih (bset b x y (bget s x y)) ctr2
        (WellShaped_bset _ _ _ _ _ hws) ?_ ?_
      · intro r2 hr2 c2 hc2 hne
        by_cases hsame : r2 = x ∧ c2 = y
        · obtain ⟨rfl, rfl⟩ := hsame
          rw [bget_bset_self size b r2 c2 (bget s r2 c2) hws hx hy]
        · rw [bget_bset_ne b x y (bget s x y) r2 c2 hsame] at hne ⊢
          exact hag r2 hr2 c2 hc2 hne
      · have := zerosCnt_bset_lt size b x y (bget s x y) hws hx hy hempty hn0.1
        omega

/-! ## Soundness of the backtracking search -/

theorem tryNums_sound (size bR bC : Nat) (rnd : Nat → Nat → Nat) (fuel : Nat)
    (b : List (List Nat)) (r c : Nat) (Q : List (List Nat) → Prop)
    (hrec : ∀ n ctr2 ctr3 sol, 1 ≤ n → n ≤ size →
      isValid size bR bC b r c n = true →
      solve size bR bC rnd fuel ctr2 (bset b r c n) = (ctr3, some sol) →
      Q sol) :
    ∀ (nums : List Nat), (∀ n ∈ nums, 1 ≤ n ∧ n ≤ size) →
      ∀ (ctr ctr4 : Nat) (sol : List (List Nat)),
        tryNums size bR bC rnd fuel b r c ctr nums = (ctr4, some sol) →
        Q sol := by
  intro nums
  induction nums with
  | nil => intro _ ctr ctr4 sol h; simp [tryNums] at h
  | cons n ns ih =>
    intro hn ctr ctr4 sol h
    by_cases hv : isValid size bR bC b r c n = true
    · simp only [tryNums, hv, if_true] at h
      rcases hs : solve size bR bC rnd fuel ctr (bset b r c n) with ⟨ctr2, osol⟩
      rw [hs] at h
      cases osol with
      | some sol2 =>
        simp only [] at h
        have hnr := hn n (List.mem_cons_self _ _)
        have hq := hrec n ctr ctr2 sol2 hnr.1 hnr.2 hv hs
        have hss : sol2 = sol := by
          have := congrArg Prod.snd h
          simpa using this
        rw [← hss]
        exact hq
      | none =>
        exact ih (fun m hm => hn m (List.mem_cons_of_mem _ hm)) ctr2 ctr4 sol h
    · simp only [tryNums, hv, if_false] at h
      exact ih (fun m hm => hn m (List.mem_cons_of_mem _ hm)) ctr ctr4 sol h

theorem solve_sound (size bR bC : Nat) (rnd : Nat → Nat → Nat)
    (hbR : 0 < bR) (hbC : 0 < bC) :
    ∀ (fuel : Nat) (b : List (List Nat)) (ctr ctr2 : Nat)
      (sol : List (List Nat)),
      Inv size bR bC b →
      solve size bR bC rnd fuel ctr b = (ctr2, some sol) →
      Inv size bR bC sol ∧ Filled size sol := by
  intro fuel
  induction fuel with
  | zero => intro b ctr ctr2 sol _ h; simp [solve] at h
  | succ fuel ih =>
    intro b ctr ctr2 sol hinv h
    rcases hfe : findEmpty size b with _ | rc
    · simp only [solve, hfe] at h
      have hb : b = sol := by
        have := congrArg Prod.snd h
        simpa using this
      subst hb
      exact ⟨hinv, fun r hr c hc => findEmpty_eq_none size b hfe r hr c hc⟩
    · obtain ⟨x, y⟩ := rc
      obtain ⟨hx, hy, hempty⟩ := findEmpty_eq_some size b (x, y) hfe
      simp only [solve, hfe] at h
      refine tryNums_sound size bR bC rnd fuel b x y
        (fun sol2 => Inv size bR bC sol2 ∧ Filled size sol2) ?_
        (shuffle (rnd ctr) (List.range' 1 size)) ?_ (ctr + 1) ctr2 sol h
      · intro n ctr3 ctr4 sol2 hn1 hn2 hval hs
        exact ih (bset b x y n) ctr3 ctr4 sol2
          (inv_place size bR bC b x y n hinv hx hy hempty hn1 hn2 hval hbR hbC)
          hs
      · intro n hmem
        have hperm := shuffle_perm (rnd ctr) (List.range' 1 size)
        have := hperm.mem_iff.mp hmem
        rw [List.mem_range'_1] at this
        omega

/-! ## Pigeonhole: no-duplicates and fullness give exactly-once -/

theorem cnt_eq_one_of (l : List Nat) (N : Nat) (hlen : l.length = N)
    (hmem : ∀ x ∈ l, 1 ≤ x ∧ x ≤ N)
    (hle : ∀ v, 1 ≤ v → v ≤ N → l.countP (fun z => z == v) ≤ 1) :
    ∀ v, 1 ≤ v → v ≤ N → l.countP (fun z => z == v) = 1 := by
  have hcount : ∀ v, l.count v = l.countP (fun z => z == v) := fun v => rfl
  have hnd : l.Nodup := by
    rw [List.nodup_iff_count_le_one]
    intro a
    by_cases ha : 1 ≤ a ∧ a ≤ N
    · rw [hcount]
      exact hle a ha.1 ha.2
    · have hax : a ∉ l := fun hal => ha (hmem a hal)
      rw [List.count_eq_zero.mpr hax]
      omega
  intro v hv1 hv2
  have hcard : l.toFinset.card = N := by
    rw [List.toFinset_card_of_nodup hnd, hlen]
  have hsub : l.toFinset ⊆ Finset.Icc 1 N := by
    intro a ha
    rw [List.mem_toFinset] at ha
    exact Finset.mem_Icc.mpr (hmem a ha)
  have hIcc : (Finset.Icc 1 N).card = N := by
    rw [Nat.card_Icc]
    omega
  have heq : l.toFinset = Finset.Icc 1 N :=
    Finset.eq_of_subset_of_card_le hsub (by omega)
  have hvmem : v ∈ l := by
    rw [← List.mem_toFinset, heq]
    exact Finset.mem_Icc.mpr ⟨hv1, hv2⟩
  have h1 : 0 < l.count v := List.count_pos_iff.mpr hvmem
  rw [hcount] at h1
  have := hle v hv1 hv2
  omega

theorem unique_of_inv_filled (size bR bC : Nat) (b : List (List Nat))
    (hmul : bR * bC = size) (hinv : Inv size bR bC b)
    (hfull : Filled size b) :
    RowsUnique size b ∧ ColsUnique size b ∧ BoxesUnique size bR bC b := by
  obtain ⟨hws, hcells, hrow, hcol, hbox⟩ := hinv
  have hcr : ∀ r < size, ∀ c < size,
      1 ≤ bget b r c ∧ bget b r c ≤ size := by
    intro r hr c hc
    rcases hcells r hr c hc with h | h
    · exact absurd h (hfull r hr c hc)
    · exact h
  refine ⟨?_, ?_, ?_⟩
  · intro r hr v hv1 hv2
    have hmemX : ∀ x ∈ (List.range size).map (fun c => bget b r c),
        1 ≤ x ∧ x ≤ size := by
      intro x hx
      rw [List.mem_map] at hx
      obtain ⟨c, hc, rfl⟩ := hx
      exact hcr r hr c (List.mem_range.mp hc)
    have hleX : ∀ w, 1 ≤ w → w ≤ size →
        ((List.range size).map (fun c => bget b r c)).countP
          (fun z => z == w) ≤ 1 := by
      intro w hw1 hw2
      rw [List.countP_map]
      exact hrow r hr w hw1 hw2
    have h := cnt_eq_one_of _ size (by simp) hmemX hleX v hv1 hv2
    rw [List.countP_map] at h
    exact h
  · intro c hc v hv1 hv2
    have hmemX : ∀ x ∈ (List.range size).map (fun r => bget b r c),
        1 ≤ x ∧ x ≤ size := by
      intro x hx
      rw [List.mem_map] at hx
      obtain ⟨r, hr, rfl⟩ := hx
      exact hcr r (List.mem_range.mp hr) c hc
    have hleX : ∀ w, 1 ≤ w → w ≤ size →
        ((List.range size).map (fun r => bget b r c)).countP
          (fun z => z == w) ≤ 1 := by
      intro w hw1 hw2
      rw [List.countP_map]
      exact hcol c hc w hw1 hw2
    have h := cnt_eq_one_of _ size (by simp) hmemX hleX v hv1 hv2
    rw [List.countP_map] at h
    exact h
  · intro bI hbI bJ hbJ v hv1 hv2
    have hlenX : ((boxCells bR bC bI bJ).map
        (fun rc => bget b rc.1 rc.2)).length = size := by
      rw [List.length_map, length_boxCells, hmul]
    have hmemX : ∀ x ∈ (boxCells bR bC bI bJ).map
        (fun rc => bget b rc.1 rc.2), 1 ≤ x ∧ x ≤ size := by
      intro x hx
      rw [List.mem_map] at hx
      obtain ⟨rc, hrc, rfl⟩ := hx
      obtain ⟨x1, y1⟩ := rc
      have hb2 := boxCells_bounds size bR bC bI bJ x1 y1 hbI hbJ hrc
      exact hcr x1 hb2.1 y1 hb2.2
    have hleX : ∀ w, 1 ≤ w → w ≤ size →
        ((boxCells bR bC bI bJ).map (fun rc => bget b rc.1 rc.2)).countP
          (fun z => z == w) ≤ 1 := by
      intro w hw1 hw2
      rw [List.countP_map]
      exact hbox bI hbI bJ hbJ w hw1 hw2
    have h := cnt_eq_one_of _ size hlenX hmemX hleX v hv1 hv2
    rw [List.countP_map] at h
    exact h

theorem bget_emptyBoard (size r c : Nat) : bget (emptyBoard size) r c = 0 := by
  unfold bget emptyBoard
  rcases Nat.lt_or_ge r size with hr | hr
  · rw [List.getD_eq_getElem (List.replicate size (List.replicate size 0)) []
      (show r < (List.replicate size (List.replicate size 0)).length by
        simpa using hr), List.getElem_replicate]
    rcases Nat.lt_or_ge c size with hc | hc
    · rw [List.getD_eq_getElem (List.replicate size 0) 0
        (show c < (List.replicate size 0).length by simpa using hc),
        List.getElem_replicate]
    · rw [List.getD_eq_getElem?_getD, List.getElem?_eq_none (by simpa using hc)]
      rfl
  · rw [List.getD_eq_getElem?_getD
        (List.replicate size (List.replicate size 0)) r [],
      List.getElem?_eq_none (by simpa using hr)]
    rfl

/-! ## The solved board of `generateCustom` -/

theorem generateCustom_solution (size bR bC clues : Nat)
    (rnd : Nat → Nat → Nat) (b : List (List Nat)) (ctr2 : Nat)
    (h : solve size bR bC rnd (size * size + 1) 0 (emptyBoard size) =
      (ctr2, some b)) :
    (generateCustom size bR bC clues rnd).2 =
      String.join (b.flatten.map (fun v => toString v)) := by
  simp only [generateCustom, h]

/-- C9: for both generator-backed modes — 4×4 with 2×2 boxes and 6×6 with
2×3 boxes — the randomized depth-first backtracking fill of the empty board
terminates successfully for every random stream (the fuel `size²+1` bounds
the recursion depth, which never exceeds the number of empty cells plus
one), and the resulting solution satisfies row, column and box uniqueness:
each digit `1..size` occurs exactly once in every row, every column and
every `boxRows × boxCols` box; `generateCustom`'s solution string is the
row-major rendering of that board. -/
theorem generator_valid :
    (∀ rnd : Nat → Nat → Nat, ∃ b,
      (solve 4 2 2 rnd 17 0 (emptyBoard 4)).2 = some b ∧
      RowsUnique 4 b ∧ ColsUnique 4 b ∧ BoxesUnique 4 2 2 b ∧
      (generateCustom 4 2 2 8 rnd).2 =
        String.join (b.flatten.map (fun v => toString v))) ∧
    (∀ rnd : Nat → Nat → Nat, ∃ b,
      (solve 6 2 3 rnd 37 0 (emptyBoard 6)).2 = some b ∧
      RowsUnique 6 b ∧ ColsUnique 6 b ∧ BoxesUnique 6 2 3 b ∧
      (generateCustom 6 2 3 18 rnd).2 =
        String.join (b.flatten.map (fun v => toString v))) := by
  constructor
  · intro rnd
    have hsol : IsSolution 4 2 2 sol4 := by
      unfold IsSolution WellShaped NoDups cntRow cntCol cntBox boxCells sol4
      decide
    have hag : Agrees 4 (emptyBoard 4) sol4 := by
      intro r _ c _ hne
      exact absurd (bget_emptyBoard 4 r c) hne
    have hws : WellShaped 4 (emptyBoard 4) := by
      unfold WellShaped emptyBoard
      decide
    have hs := solve_complete 4 2 2 rnd sol4 hsol (by decide) (by decide)
      (by decide) (by decide) 17 (emptyBoard 4) 0 hws hag (by decide)
    rcases hsv : solve 4 2 2 rnd 17 0 (emptyBoard 4) with ⟨ctr2, osol⟩
    rw [hsv] at hs
    cases osol with
    | none => simp at hs
    | some b =>
      have hinv0 : Inv 4 2 2 (emptyBoard 4) := by
        refine ⟨hws, ?_, ?_⟩
        · unfold CellsOk emptyBoard
          decide
        · unfold NoDups cntRow cntCol cntBox boxCells emptyBoard
          decide
      have hsound := solve_sound 4 2 2 rnd (by decide) (by decide) 17
        (emptyBoard 4) 0 ctr2 b hinv0 hsv
      have huniq := unique_of_inv_filled 4 2 2 b (by decide) hsound.1
        hsound.2
      exact ⟨b, rfl, huniq.1, huniq.2.1, huniq.2.2,
        generateCustom_solution 4 2 2 8 rnd b ctr2 hsv⟩
  · intro rnd
    have hsol : IsSolution 6 2 3 sol6 := by
      unfold IsSolution WellShaped NoDups cntRow cntCol cntBox boxCells sol6
      decide
    have hag : Agrees 6 (emptyBoard 6) sol6 := by
      intro r _ c _ hne
      exact absurd (bget_emptyBoard 6 r c) hne
    have hws : WellShaped 6 (emptyBoard 6) := by
      unfold WellShaped emptyBoard
      decide
    have hs := solve_complete 6 2 3 rnd sol6 hsol (by decide) (by decide)
      (by decide) (by decide) 37 (emptyBoard 6) 0 hws hag (by decide)
    rcases hsv : solve 6 2 3 rnd 37 0 (emptyBoard 6) with ⟨ctr2, osol⟩
    rw [hsv] at hs
    cases osol with
    | none => simp at hs
    | some b =>
      have hinv0 : Inv 6 2 3 (emptyBoard 6) := by
        refine ⟨hws, ?_, ?_⟩
        · unfold CellsOk emptyBoard
          decide
        · unfold NoDups cntRow cntCol cntBox boxCells emptyBoard
          decide
      have hsound := solve_sound 6 2 3 rnd (by decide) (by decide) 37
        (emptyBoard 6) 0 ctr2 b hinv0 hsv
      have huniq := unique_of_inv_filled 6 2 3 b (by decide) hsound.1
        hsound.2
      exact ⟨b, rfl, huniq.1, huniq.2.1, huniq.2.2,
        generateCustom_solution 6 2 3 18 rnd b ctr2 hsv⟩

/-! ## String encoding of boards -/

theorem str_length_data (s : String) : s.length = s.data.length := rfl

theorem flatten_singletons {α : Type} (l : List α) :
    (l.map (fun a => [a])).flatten = l := by
  induction l with
  | nil => rfl
  | cons a t ih =>
    simp only [List.map_cons, List.flatten_cons, ih, List.singleton_append]

theorem join_data (l : List String) :
    (String.join l).data = (l.map String.data).flatten := by
  have h : ∀ acc : String, (List.foldl (fun r s => r ++ s) acc l).data
      = acc.data ++ (l.map String.data).flatten := by
    induction l with
    | nil => intro acc; simp
    | cons s t ih =>
      intro acc
      rw [List.foldl_cons, ih, List.map_cons, List.flatten_cons,
        String.data_append, List.append_assoc]
  simpa [String.join] using h ""

theorem join_pieces_data {α : Type} (l : List α) (f : α → String)
    (g : α → Char) (h : ∀ x ∈ l, (f x).data = [g x]) :
    (String.join (l.map f)).data = l.map g := by
  rw [join_data, List.map_map]
  have h2 : l.map (String.data ∘ f) = (l.map g).map (fun c => [c]) := by
    rw [List.map_map]
    exact List.map_congr_left (fun a ha => h a ha)
  rw [h2, flatten_singletons]

theorem toString_digit : ∀ v < 10, 1 ≤ v → (toString v).data = [digitChar v] := by
  decide

theorem digitChar_ne_dash : ∀ v < 10, 1 ≤ v → digitChar v ≠ '-' := by
  decide

theorem map_getD_range {α : Type} (l : List α) (d : α) :
    (List.range l.length).map (fun i => l.getD i d) = l := by
  induction l with
  | nil => rfl
  | cons a t ih =>
    rw [List.length_cons, List.range_succ_eq_map, List.map_cons, List.map_map]
    have h2 : ((fun i => (a :: t).getD i d) ∘ Nat.succ) =
        fun i => t.getD i d := by
      funext i
      rfl
    rw [h2, ih, List.getD_cons_zero]

theorem getD_map_of_lt {α β : Type} (f : α → β) (l : List α) (i : Nat)
    (hi : i < l.length) (d : β) (d0 : α) :
    (l.map f).getD i d = f (l.getD i d0) := by
  rw [List.getD_eq_getElem (l.map f) d (by rw [List.length_map]; exact hi),
    List.getElem_map, List.getD_eq_getElem l d0 hi]

theorem flatten_length (size : Nat) (b : List (List Nat))
    (hws : WellShaped size b) : b.flatten.length = size * size := by
  obtain ⟨hlen, hrows⟩ := hws
  rw [List.length_flatten]
  have h2 : b.map List.length = List.replicate size size := by
    rw [List.eq_replicate_iff]
    constructor
    · rw [List.length_map, hlen]
    · intro x hx
      rw [List.mem_map] at hx
      obtain ⟨row, hrow, rfl⟩ := hx
      exact hrows row hrow
  rw [h2, List.sum_replicate, smul_eq_mul]

theorem flatten_getD (b : List (List Nat)) (N : Nat) (hN : 0 < N)
    (hrows : ∀ row ∈ b, row.length = N) :
    ∀ i, i < b.length * N → b.flatten.getD i 0 = bget b (i / N) (i % N) := by
  induction b with
  | nil => intro i hi; simp at hi
  | cons row t ih =>
    intro i hi
    have hrowlen : row.length = N := hrows row (List.mem_cons_self _ _)
    rw [List.flatten_cons]
    by_cases hiN : i < N
    · rw [List.getD_append row t.flatten 0 i (by rw [hrowlen]; exact hiN)]
      unfold bget
      rw [Nat.div_eq_of_lt hiN, Nat.mod_eq_of_lt hiN, List.getD_cons_zero]
    · rw [List.getD_append_right row t.flatten 0 i (by rw [hrowlen]; omega),
        hrowlen]
      have hlen2 : i - N < t.length * N := by
        rw [List.length_cons] at hi
        have hxx : (t.length + 1) * N = t.length * N + N := by ring
        omega
      rw [ih (fun r hr => hrows r (List.mem_cons_of_mem _ hr)) (i - N) hlen2]
      have hieq : i = (i - N) + N := by omega
      have hdiv : i / N = (i - N) / N + 1 := by
        conv_lhs => rw [hieq]
        rw [Nat.add_div_right _ hN]
      have hmod : i % N = (i - N) % N := by
        conv_lhs => rw [hieq]
        rw [Nat.add_mod_right]
      rw [hdiv, hmod]
      unfold bget
      rw [List.getD_cons_succ]

/-! ## The cell-blanking fold of `generateCustom` -/

theorem foldl_blank_char (N : Nat) (hN : 0 < N) :
    ∀ (ps : List Nat) (b : List (List Nat)),
      WellShaped N b → (∀ p ∈ ps, p < N * N) →
      WellShaped N (ps.foldl (fun t pos => bset t (pos / N) (pos % N) 0) b) ∧
      (∀ r < N, ∀ c < N,
        bget (ps.foldl (fun t pos => bset t (pos / N) (pos % N) 0) b) r c =
          if r * N + c ∈ ps then 0 else bget b r c) := by
  intro ps
  induction ps with
  | nil =>
    intro b hws _
    refine ⟨hws, ?_⟩
    intro r _ c _
    simp
  | cons q t ih =>
    intro b hws hps
    have hqN : q < N * N := hps q (List.mem_cons_self _ _)
    have hqd : q / N < N := by
      rw [Nat.div_lt_iff_lt_mul hN]
      exact hqN
    have hqm : q % N < N := Nat.mod_lt _ hN
    have hws2 : WellShaped N (bset b (q / N) (q % N) 0) :=
      WellShaped_bset N b (q / N) (q % N) 0 hws
    obtain ⟨ihws, ihchar⟩ := ih (bset b (q / N) (q % N) 0) hws2
      (fun x hx => hps x (List.mem_cons_of_mem _ hx))
    rw [List.foldl_cons]
    refine ⟨ihws, ?_⟩
    intro r hr c hc
    rw [ihchar r hr c hc]
    by_cases hmem : r * N + c ∈ t
    · rw [if_pos hmem, if_pos (List.mem_cons_of_mem _ hmem)]
    · rw [if_neg hmem]
      by_cases hsame : r = q / N ∧ c = q % N
      · obtain ⟨rfl, rfl⟩ := hsame
        have hrc : q / N * N + q % N = q := by
          rw [Nat.mul_comm (q / N) N]
          exact Nat.div_add_mod q N
        rw [hrc, if_pos (List.mem_cons_self _ _),
          bget_bset_self N b (q / N) (q % N) 0 hws hqd hqm]
      · have hne : r * N + c ≠ q := by
          intro he
          have h1 : (r * N + c) / N = r := div_index_eq N r c hN hc
          have h2 : (r * N + c) % N = c := mod_index_eq N r c hc
          rw [he] at h1 h2
          exact hsame ⟨h1.symm, h2.symm⟩
        have hnotin : r * N + c ∉ q :: t := by
          intro hmem2
          rcases List.mem_cons.mp hmem2 with h | h
          · exact hne h
          · exact hmem h
        rw [if_neg hnotin, bget_bset_ne b (q / N) (q % N) 0 r c hsame]

theorem countP_mem_range (M : Nat) (ps : List Nat) (hnd : ps.Nodup)
    (hsub : ∀ p ∈ ps, p < M) :
    (List.range M).countP (fun i => decide (i ∈ ps)) = ps.length := by
  rw [List.countP_eq_length_filter]
  have hperm : List.Perm ((List.range M).filter (fun i => decide (i ∈ ps)))
      ps := by
    rw [List.perm_ext_iff_of_nodup
      (List.Nodup.filter _ (List.nodup_range M)) hnd]
    intro a
    rw [List.mem_filter, List.mem_range]
    constructor
    · rintro ⟨_, h⟩
      exact of_decide_eq_true h
    · intro h
      exact ⟨hsub a h, decide_eq_true h⟩
  exact hperm.length_eq

theorem countP_flatten_eq (size : Nat) (hN : 0 < size) (b : List (List Nat))
    (hws : WellShaped size b) (p : Nat → Bool) :
    b.flatten.countP p =
      (List.range (size * size)).countP
        (fun i => p (bget b (i / size) (i % size))) := by
  have hlen : b.flatten.length = size * size := flatten_length size b hws
  conv_lhs => rw [← map_getD_range b.flatten 0]
  rw [List.countP_map, hlen]
  refine List.countP_congr ?_
  intro i hi
  rw [List.mem_range] at hi
  have h2 := flatten_getD b size hN hws.2 i (by rw [hws.1]; exact hi)
  simp only [Function.comp_apply, h2]

/-! ## Rendering a blanked board as a puzzle/solution string pair -/

theorem blank_render (size : Nat) (hN : 0 < size) (hsize9 : size ≤ 9)
    (b : List (List Nat)) (hbws : WellShaped size b)
    (hcellr : ∀ r < size, ∀ c < size, 1 ≤ bget b r c ∧ bget b r c ≤ size)
    (ps : List Nat) (hnd : ps.Nodup) (hsub : ∀ p ∈ ps, p < size * size) :
    GoodPair size
      (String.join
        (((ps.foldl (fun t pos => bset t (pos / size) (pos % size) 0)
            b).flatten).map (fun v => if v == 0 then "-" else toString v)),
       String.join (b.flatten.map (fun v => toString v))) ∧
    (String.join
        (((ps.foldl (fun t pos => bset t (pos / size) (pos % size) 0)
            b).flatten).map
          (fun v => if v == 0 then "-" else toString v))).data.countP
      (fun ch => ch == '-') = ps.length := by
  obtain ⟨hpbws, hpbchar⟩ := foldl_blank_char size hN ps b hbws hsub
  set pb := ps.foldl (fun t pos => bset t (pos / size) (pos % size) 0) b
    with hpb
  have hpblen : pb.flatten.length = size * size := flatten_length size pb hpbws
  have hblen : b.flatten.length = size * size := flatten_length size b hbws
  have hdivlt : ∀ i, i < size * size → i / size < size := by
    intro i hi
    rw [Nat.div_lt_iff_lt_mul hN]
    exact hi
  have hmodlt : ∀ i : Nat, i % size < size := fun i => Nat.mod_lt _ hN
  have hpbidx : ∀ i, i < size * size →
      pb.flatten.getD i 0 = bget pb (i / size) (i % size) := by
    intro i hi
    exact flatten_getD pb size hN hpbws.2 i (by rw [hpbws.1]; exact hi)
  have hbidx : ∀ i, i < size * size →
      b.flatten.getD i 0 = bget b (i / size) (i % size) := by
    intro i hi
    exact flatten_getD b size hN hbws.2 i (by rw [hbws.1]; exact hi)
  have hmem_pb : ∀ x ∈ pb.flatten, x = 0 ∨ (1 ≤ x ∧ x ≤ size) := by
    intro x hx
    rw [List.mem_iff_getElem] at hx
    obtain ⟨i, hi, hix⟩ := hx
    have hi2 : i < size * size := by rw [← hpblen]; exact hi
    have h1 : pb.flatten.getD i 0 = x := by
      rw [List.getD_eq_getElem pb.flatten 0 hi]
      exact hix
    rw [hpbidx i hi2, hpbchar (i / size) (hdivlt i hi2) (i % size)
      (hmodlt i)] at h1
    by_cases hm : i / size * size + i % size ∈ ps
    · rw [if_pos hm] at h1
      exact Or.inl h1.symm
    · rw [if_neg hm] at h1
      right
      rw [← h1]
      exact hcellr (i / size) (hdivlt i hi2) (i % size) (hmodlt i)
  have hmem_b : ∀ x ∈ b.flatten, 1 ≤ x ∧ x ≤ size := by
    intro x hx
    rw [List.mem_iff_getElem] at hx
    obtain ⟨i, hi, hix⟩ := hx
    have hi2 : i < size * size := by rw [← hblen]; exact hi
    have h1 : b.flatten.getD i 0 = x := by
      rw [List.getD_eq_getElem b.flatten 0 hi]
      exact hix
    rw [hbidx i hi2] at h1
    rw [← h1]
    exact hcellr (i / size) (hdivlt i hi2) (i % size) (hmodlt i)
  have hPdata : (String.join (pb.flatten.map
      (fun v => if v == 0 then "-" else toString v))).data =
      pb.flatten.map (fun v => if v == 0 then '-' else digitChar v) := by
    refine join_pieces_data pb.flatten _ _ ?_
    intro x hx
    by_cases hx0 : x = 0
    · subst hx0
      decide
    · have hcond : ¬((x == 0) = true) := by simpa using hx0
      rw [if_neg hcond, if_neg hcond]
      have hxr : 1 ≤ x ∧ x ≤ size := (hmem_pb x hx).resolve_left hx0
      exact toString_digit x (by omega) hxr.1
  have hSdata : (String.join (b.flatten.map (fun v => toString v))).data =
      b.flatten.map digitChar := by
    refine join_pieces_data b.flatten _ _ ?_
    intro x hx
    have hxr := hmem_b x hx
    exact toString_digit x (by omega) hxr.1
  have hlen1 : (String.join (pb.flatten.map
      (fun v => if v == 0 then "-" else toString v))).length =
      size * size := by
    rw [str_length_data, hPdata, List.length_map, hpblen]
  have hlen2 : (String.join (b.flatten.map (fun v => toString v))).length =
      size * size := by
    rw [str_length_data, hSdata, List.length_map, hblen]
  have hchar1 : ∀ ch ∈ (String.join (pb.flatten.map
      (fun v => if v == 0 then "-" else toString v))).data,
      ch = '-' ∨ ∃ d ∈ List.range' 1 size, ch = digitChar d := by
    intro ch hch
    rw [hPdata, List.mem_map] at hch
    obtain ⟨v, hv, rfl⟩ := hch
    by_cases hv0 : (v == 0) = true
    · left
      rw [if_pos hv0]
    · right
      rw [if_neg hv0]
      have hvr : 1 ≤ v ∧ v ≤ size :=
        (hmem_pb v hv).resolve_left (by simpa using hv0)
      exact ⟨v, by rw [List.mem_range'_1]; omega, rfl⟩
  have hchar2 : ∀ ch ∈ (String.join (b.flatten.map
      (fun v => toString v))).data,
      ch = '-' ∨ ∃ d ∈ List.range' 1 size, ch = digitChar d := by
    intro ch hch
    rw [hSdata, List.mem_map] at hch
    obtain ⟨v, hv, rfl⟩ := hch
    have hvr := hmem_b v hv
    exact Or.inr ⟨v, by rw [List.mem_range'_1]; omega, rfl⟩
  have hsubp : ∀ i < size * size,
      (String.join (pb.flatten.map
        (fun v => if v == 0 then "-" else toString v))).data.getD i '-' ≠ '-' →
      (String.join (pb.flatten.map
        (fun v => if v == 0 then "-" else toString v))).data.getD i '-' =
      (String.join (b.flatten.map (fun v => toString v))).data.getD i '-' := by
    intro i hi hne
    have e1 : (String.join (pb.flatten.map
        (fun v => if v == 0 then "-" else toString v))).data.getD i '-' =
        (if bget pb (i / size) (i % size) == 0 then '-'
         else digitChar (bget pb (i / size) (i % size))) := by
      rw [hPdata, getD_map_of_lt (fun v => if v == 0 then '-' else digitChar v)
        pb.flatten i (by rw [hpblen]; exact hi) '-' 0, hpbidx i hi]
    have e2 : (String.join (b.flatten.map
        (fun v => toString v))).data.getD i '-' =
        digitChar (bget b (i / size) (i % size)) := by
      rw [hSdata, getD_map_of_lt digitChar b.flatten i
        (by rw [hblen]; exact hi) '-' 0, hbidx i hi]
    rw [e1] at hne ⊢
    rw [e2]
    by_cases hz : (bget pb (i / size) (i % size) == 0) = true
    · rw [if_pos hz] at hne
      exact absurd rfl hne
    · rw [if_neg hz]
      congr 1
      have hcell := hpbchar (i / size) (hdivlt i hi) (i % size) (hmodlt i)
      by_cases hm : i / size * size + i % size ∈ ps
      · rw [if_pos hm] at hcell
        exact absurd hcell (by simpa using hz)
      · rw [if_neg hm] at hcell
        exact hcell
  have hcnt : (String.join (pb.flatten.map
      (fun v => if v == 0 then "-" else toString v))).data.countP
      (fun ch => ch == '-') = ps.length := by
    rw [hPdata, List.countP_map, countP_flatten_eq size hN pb hpbws]
    have hcongr : (List.range (size * size)).countP
        (fun i => ((fun ch => ch == '-') ∘
          fun v => if v == 0 then '-' else digitChar v)
          (bget pb (i / size) (i % size))) =
        (List.range (size * size)).countP (fun i => decide (i ∈ ps)) := by
      refine List.countP_congr ?_
      intro i hi
      rw [List.mem_range] at hi
      have hidx : i / size * size + i % size = i := by
        rw [Nat.mul_comm (i / size) size]
        exact Nat.div_add_mod i size
      have hcell := hpbchar (i / size) (hdivlt i hi) (i % size) (hmodlt i)
      rw [hidx] at hcell
      by_cases hm : i ∈ ps
      · rw [if_pos hm] at hcell
        simp [Function.comp, hcell, hm]
      · rw [if_neg hm] at hcell
        have hnz := hcellr (i / size) (hdivlt i hi) (i % size) (hmodlt i)
        constructor
        · intro hL
          exfalso
          simp only [Function.comp_apply, hcell] at hL
          have hne0 : ¬((bget b (i / size) (i % size) == 0) = true) := by
            simp
            omega
          rw [if_neg hne0, beq_iff_eq] at hL
          exact digitChar_ne_dash (bget b (i / size) (i % size))
            (by omega) hnz.1 hL
        · intro hR
          exfalso
          exact hm (of_decide_eq_true hR)
    rw [hcongr, countP_mem_range (size * size) ps hnd hsub]
  exact ⟨⟨hlen1, hlen2, hchar1, hchar2, hsubp⟩, hcnt⟩

/-! ## The full generator contract for the custom modes -/

theorem generateCustom_good (size bR bC clues : Nat) (rnd : Nat → Nat → Nat)
    (s : List (List Nat)) (hsol : IsSolution size bR bC s)
    (hbR : 0 < bR) (hbC : 0 < bC) (hRd : bR ∣ size) (hCd : bC ∣ size)
    (hN : 0 < size) (hsize9 : size ≤ 9) (hclues : clues ≤ size * size)
    (hinv0 : Inv size bR bC (emptyBoard size))
    (hz0 : zerosCnt size (emptyBoard size) < size * size + 1) :
    GoodPair size (generateCustom size bR bC clues rnd) ∧
    (generateCustom size bR bC clues rnd).1.data.countP
      (fun ch => ch == '-') = size * size - clues := by
  have hws0 : WellShaped size (emptyBoard size) := hinv0.1
  have hag : Agrees size (emptyBoard size) s := by
    intro r _ c _ hne
    exact absurd (bget_emptyBoard size r c) hne
  have hc := solve_complete size bR bC rnd s hsol hbR hbC hRd hCd
    (size * size + 1) (emptyBoard size) 0 hws0 hag hz0
  rcases hsv : solve size bR bC rnd (size * size + 1) 0 (emptyBoard size)
    with ⟨ctr2, osol⟩
  rw [hsv] at hc
  cases osol with
  | none => simp at hc
  | some b =>
    have hsound := solve_sound size bR bC rnd hbR hbC (size * size + 1)
      (emptyBoard size) 0 ctr2 b hinv0 hsv
    obtain ⟨⟨hbws, hbcells, hbnd⟩, hbfull⟩ := hsound
    have hcellr : ∀ r < size, ∀ c < size,
        1 ≤ bget b r c ∧ bget b r c ≤ size := by
      intro r hr c hc2
      rcases hbcells r hr c hc2 with h | h
      · exact absurd h (hbfull r hr c hc2)
      · exact h
    have hgen : generateCustom size bR bC clues rnd =
        (String.join
          ((((shuffle (rnd ctr2) (List.range (size * size))).take
              (size * size - clues)).foldl
            (fun t pos => bset t (pos / size) (pos % size) 0) b).flatten.map
            (fun v => if v == 0 then "-" else toString v)),
         String.join (b.flatten.map (fun v => toString v))) := by
      simp only [generateCustom, hsv]
    have hpsperm := shuffle_perm (rnd ctr2) (List.range (size * size))
    have hnd : ((shuffle (rnd ctr2) (List.range (size * size))).take
        (size * size - clues)).Nodup := by
      have h1 : (shuffle (rnd ctr2) (List.range (size * size))).Nodup :=
        hpsperm.nodup_iff.mpr (List.nodup_range _)
      exact h1.sublist (List.take_sublist _ _)
    have hsub : ∀ p ∈ (shuffle (rnd ctr2) (List.range (size * size))).take
        (size * size - clues), p < size * size := by
      intro p hp
      have h1 := List.mem_of_mem_take hp
      have h2 := hpsperm.mem_iff.mp h1
      rw [List.mem_range] at h2
      exact h2
    have hlen : ((shuffle (rnd ctr2) (List.range (size * size))).take
        (size * size - clues)).length = size * size - clues := by
      rw [List.length_take, hpsperm.length_eq, List.length_range]
      omega
    have hmain := blank_render size hN hsize9 b hbws hcellr
      ((shuffle (rnd ctr2) (List.range (size * size))).take
        (size * size - clues)) hnd hsub
    have hproj : (generateCustom size bR bC clues rnd).1 =
        String.join
          ((((shuffle (rnd ctr2) (List.range (size * size))).take
              (size * size - clues)).foldl
            (fun t pos => bset t (pos / size) (pos % size) 0) b).flatten.map
            (fun v => if v == 0 then "-" else toString v)) := by
      rw [hgen]
    refine ⟨?_, ?_⟩
    · rw [hgen]
      exact hmain.1
    · rw [hproj, hmain.2, hlen]

theorem good_mode4 (rnd : Nat → Nat → Nat) :
    GoodPair 4 (generateCustom 4 2 2 8 rnd) ∧
    (generateCustom 4 2 2 8 rnd).1.data.countP (fun ch => ch == '-') = 8 := by
  have hsol : IsSolution 4 2 2 sol4 := by
    unfold IsSolution WellShaped NoDups cntRow cntCol cntBox boxCells sol4
    decide
  have hinv0 : Inv 4 2 2 (emptyBoard 4) := by
    refine ⟨?_, ?_, ?_⟩
    · unfold WellShaped emptyBoard
      decide
    · unfold CellsOk emptyBoard
      decide
    · unfold NoDups cntRow cntCol cntBox boxCells emptyBoard
      decide
  have h := generateCustom_good 4 2 2 8 rnd sol4 hsol (by decide) (by decide)
    (by decide) (by decide) (by decide) (by decide) (by decide) hinv0
    (by decide)
  exact ⟨h.1, h.2⟩

theorem good_mode6 (rnd : Nat → Nat → Nat) :
    GoodPair 6 (generateCustom 6 2 3 18 rnd) ∧
    (generateCustom 6 2 3 18 rnd).1.data.countP (fun ch => ch == '-') = 18 := by
  have hsol : IsSolution 6 2 3 sol6 := by
    unfold IsSolution WellShaped NoDups cntRow cntCol cntBox boxCells sol6
    decide
  have hinv0 : Inv 6 2 3 (emptyBoard 6) := by
    refine ⟨?_, ?_, ?_⟩
    · unfold WellShaped emptyBoard
      decide
    · unfold CellsOk emptyBoard
      decide
    · unfold NoDups cntRow cntCol cntBox boxCells emptyBoard
      decide
  have h := generateCustom_good 6 2 3 18 rnd sol6 hsol (by decide) (by decide)
    (by decide) (by decide) (by decide) (by decide) (by decide) hinv0
    (by decide)
  exact ⟨h.1, h.2⟩

theorem good_curated (d : String) : GoodPair 9 (getSudoku d) := by
  unfold GoodPair getSudoku
  decide

/-- C8: for every mode, `generate(mode)` returns a puzzle string and a
solution string of length `size(mode)²` whose characters are digits
`1..size` or the blank marker `-`, with every non-blank puzzle character
equal to the same-position solution character; and for the generator-backed
modes the puzzle has exactly `size² − clues` blanks: 8 blanks for mode "4"
(16 cells, 8 clues) and 18 blanks for mode "6" (36 cells, 18 clues) — for
every random stream. -/
theorem generator_output :
    (∀ (mode : String) (rnd : Nat → Nat → Nat),
      GoodPair (modeSize mode) (generatePuzzle mode rnd)) ∧
    (∀ rnd : Nat → Nat → Nat,
      (generatePuzzle "4" rnd).1.data.countP (fun ch => ch == '-') = 8) ∧
    (∀ rnd : Nat → Nat → Nat,
      (generatePuzzle "6" rnd).1.data.countP (fun ch => ch == '-') = 18) := by
  refine ⟨?_, ?_, ?_⟩
  · intro mode rnd
    by_cases hm4 : mode = "4"
    · subst hm4
      have hgen : generatePuzzle "4" rnd = generateCustom 4 2 2 8 rnd := rfl
      have hms : modeSize "4" = 4 := rfl
      rw [hgen, hms]
      exact (good_mode4 rnd).1
    · by_cases hm6 : mode = "6"
      · subst hm6
        have hgen : generatePuzzle "6" rnd = generateCustom 6 2 3 18 rnd := by
          unfold generatePuzzle
          rw [if_neg (by decide), if_pos rfl]
        have hms : modeSize "6" = 6 := by
          unfold modeSize
          rw [if_neg (by decide), if_pos rfl]
        rw [hgen, hms]
        exact (good_mode6 rnd).1
      · by_cases hm9 : mode = "9expert"
        · subst hm9
          have hgen : generatePuzzle "9expert" rnd = getSudoku "expert" := by
            unfold generatePuzzle
            rw [if_neg (by decide), if_neg (by decide), if_pos rfl]
          have hms : modeSize "9expert" = 9 := by
            unfold modeSize
            rw [if_neg (by decide), if_neg (by decide)]
          rw [hgen, hms]
          exact good_curated "expert"
        · have hgen : generatePuzzle mode rnd = getSudoku "medium" := by
            unfold generatePuzzle
            rw [if_neg hm4, if_neg hm6, if_neg hm9]
          have hms : modeSize mode = 9 := by
            unfold modeSize
            rw [if_neg hm4, if_neg hm6]
          rw [hgen, hms]
          exact good_curated "medium"
  · intro rnd
    have hgen : generatePuzzle "4" rnd = generateCustom 4 2 2 8 rnd := rfl
    rw [hgen]
    exact (good_mode4 rnd).2
  · intro rnd
    have hgen : generatePuzzle "6" rnd = generateCustom 6 2 3 18 rnd := by
      unfold generatePuzzle
      rw [if_neg (by decide), if_pos rfl]
    rw [hgen]
    exact (good_mode6 rnd).2

end SudoGame
